import Mathlib

/-!
# Cache-blocked matrix transpose: kernels, block-size estimator, cache probe

A shallow embedding of `src/main.cpp` and `src/cache_info.h`.

Conventions of the embedding

* C `int` / `long` values are Lean `Int`s.  Loop counters and matrix indices are
  kept as mathematical integers (a counter stays below `m + block_size`).  The
  one `int` product that can leave the 32-bit range for a well-typed argument,
  `block_size * block_size` in `calculate_block_size`, and the narrowing
  conversions of the cache probe are reduced with `wrap32` / `wrap64`.
* A `for` loop is `forLoop`, a recursion on a fuel counter that bounds the number
  of iterations: a loop that needs more iterations than the fuel yields `none`.
* Undefined behaviour and uncaught exceptions (out-of-range element access,
  integer division by zero, a throwing `std::stol`) are the result `none`.
* `std::vector<std::vector<int>>` is a list of rows.
-/

namespace TransposeCache

/-! ## Machine integers -/

/-- Two's-complement reduction of an integer to the 32-bit signed range. -/
def wrap32 (x : Int) : Int := (x + 2147483648) % 4294967296 - 2147483648

/-- Two's-complement reduction of an integer to the 64-bit signed range. -/
def wrap64 (x : Int) : Int :=
  (x + 9223372036854775808) % 18446744073709551616 - 9223372036854775808

/-- C integer division `a / b`: truncation toward zero, undefined for `b = 0`. -/
def cdiv (a b : Int) : Option Int := if b = 0 then none else some (Int.tdiv a b)

/-! ## Loops -/

/-- The loop `for (int i = start; i < stop; i += step) body(i)` threading a state
through the body.  The body may fail; `fuel` bounds the number of iterations. -/
def forLoop {σ : Type} (fuel : Nat) (i stop step : Int) (body : Int → σ → Option σ)
    (s : σ) : Option σ :=
  if i < stop then
    match fuel with
    | 0 => none
    | fuel + 1 =>
      match body i s with
      | none => none
      | some s' => forLoop fuel (i + step) stop step body s'
  else some s

/-! ## Matrices -/

/-- A `std::vector<std::vector<int>>`: the list of its rows. -/
abbrev Matrix := List (List Int)

/-- The element read `a[i][j]`; out-of-range access is undefined. -/
def Matrix.read (a : Matrix) (i j : Int) : Option Int :=
  if 0 ≤ i ∧ 0 ≤ j then
    match a[i.toNat]? with
    | none => none
    | some row => row[j.toNat]?
  else none

/-- The element write `a[i][j] = v`; out-of-range access is undefined. -/
def Matrix.write (a : Matrix) (i j : Int) (v : Int) : Option Matrix :=
  if 0 ≤ i ∧ 0 ≤ j then
    match a[i.toNat]? with
    | none => none
    | some row =>
      if j.toNat < row.length then some (a.set i.toNat (row.set j.toNat v)) else none
  else none

/-- A matrix with `r` rows, each of `c` elements. -/
def Matrix.Shape (r c : Nat) (a : Matrix) : Prop :=
  a.length = r ∧ ∀ row ∈ a, row.length = c

instance (r c : Nat) (a : Matrix) : Decidable (Matrix.Shape r c a) := by
  unfold Matrix.Shape; infer_instance

/-! ## Transpose kernels (`main.cpp`, lines 17-37) -/

/-- The assignment `dst[j][i] = src[i][j]`. -/
def assignTransposed (src : Matrix) (i j : Int) (dst : Matrix) : Option Matrix :=
  match src.read i j with
  | none => none
  | some v => dst.write j i v

/-- The loop nest of `transpose_naive` (lines 18-22) around its innermost statement
`body i j`. -/
def naiveLoops {σ : Type} (fuel : Nat) (m n : Int) (body : Int → Int → σ → Option σ)
    (s : σ) : Option σ :=
  forLoop fuel 0 m 1 (fun i s =>
    forLoop fuel 0 n 1 (fun j s => body i j s) s) s

/-- The loop nest of `transpose_blocked` (lines 26-36) around its innermost statement
`body ii jj`. -/
def blockedLoops {σ : Type} (fuel : Nat) (m n block_size : Int)
    (body : Int → Int → σ → Option σ) (s : σ) : Option σ :=
  forLoop fuel 0 m block_size (fun i s =>
    forLoop fuel 0 n block_size (fun j s =>
      let i_max := min (i + block_size) m
      let j_max := min (j + block_size) n
      forLoop fuel i i_max 1 (fun ii s =>
        forLoop fuel j j_max 1 (fun jj s => body ii jj s) s) s) s) s

/-- The kernel `transpose_naive(src, dst, m, n)`; the result is the final `dst`. -/
def transpose_naive (fuel : Nat) (src dst : Matrix) (m n : Int) : Option Matrix :=
  naiveLoops fuel m n (fun i j d => assignTransposed src i j d) dst

/-- The kernel `transpose_blocked(src, dst, m, n, block_size)`; the result is the
final `dst`. -/
def transpose_blocked (fuel : Nat) (src dst : Matrix) (m n block_size : Int) :
    Option Matrix :=
  blockedLoops fuel m n block_size (fun ii jj d => assignTransposed src ii jj d) dst

/-- The 4 x 4 source matrix of the worked scenario. -/
def src4 : Matrix := [[0, 1, 2, 3], [4, 5, 6, 7], [8, 9, 10, 11], [12, 13, 14, 15]]

/-- A 4 x 4 destination holding zeros. -/
def zero4 : Matrix := [[0, 0, 0, 0], [0, 0, 0, 0], [0, 0, 0, 0], [0, 0, 0, 0]]

/-- The transpose of `src4`. -/
def src4T : Matrix := [[0, 4, 8, 12], [1, 5, 9, 13], [2, 6, 10, 14], [3, 7, 11, 15]]

/-! ## Cache geometry (`cache_info.h`, lines 15-19) -/

/-- The record `CacheInfo`: L1D size in bytes, line size in bytes, number of ways. -/
structure CacheInfo where
  l1d_size : Int
  line_size : Int
  associativity : Int
deriving DecidableEq, Repr

/-! ## Block-size estimator (`main.cpp`, lines 73-108) -/

/-- Bit-by-bit integer square root: starting from `r`, the bits `2 ^ (k - 1)`, ...,
`2 ^ 0` are added to `r` as long as the square stays at most `x`. -/
def isqrtBits (x : Nat) : Nat → Nat → Nat
  | 0, r => r
  | k + 1, r => if (r + 2 ^ k) * (r + 2 ^ k) ≤ x then isqrtBits x k (r + 2 ^ k)
      else isqrtBits x k r

/-- The conversion `static_cast<int>(std::sqrt(x))` of a non-negative integer: the
truncated square root.  The source takes the root in `double`; for `0 ≤ x < 2 ^ 52`
the argument converts exactly and the truncated `double` root is this floor root.
For larger arguments the `double` root can be larger by one (at `2 ^ 54 - 1` the
floor root is `134217727`, the `double` gives `134217728`), so a statement that
depends on the value of the root is made for arguments below `2 ^ 52` only. -/
def sqrt_int (x : Int) : Int := (isqrtBits x.toNat 32 0 : Nat)

/-- The statement `block_size = (block_size / elements_per_line) * elements_per_line`,
which occurs three times in `calculate_block_size`; the value is the new
`block_size`. -/
def alignDown (block_size elements_per_line : Int) : Option Int :=
  match cdiv block_size elements_per_line with
  | none => none
  | some q => some (q * elements_per_line)

/-- The function `calculate_block_size(cache, m, n)`.  The result is `none` when an
integer division by zero is reached.  Divisions by the non-zero constants `8`, `2`
and `bytes_per_element = sizeof(int) = 4` are written with `Int.tdiv` directly. -/
def calculate_block_size (cache : CacheInfo) (m n : Int) : Option Int :=
  let l1d_size := if cache.l1d_size > 0 then cache.l1d_size else 49152
  let line_size := if cache.line_size > 0 then cache.line_size else 64
  let associativity := if cache.associativity > 0 then cache.associativity else 8
  let bytes_per_element : Int := 4
  let elements_per_line := Int.tdiv line_size bytes_per_element
  let block_size := sqrt_int (Int.tdiv l1d_size 8)
  match alignDown block_size elements_per_line with
  | none => none
  | some block_size =>
  let block_size := min block_size (min m n)
  match cdiv (wrap32 (block_size * block_size) * bytes_per_element) line_size with
  | none => none
  | some lines_per_block =>
  let total_lines := 2 * lines_per_block
  match cdiv l1d_size line_size with
  | none => none
  | some max_lines =>
  match (if total_lines > max_lines then
      alignDown (sqrt_int (Int.tdiv (Int.tdiv l1d_size 2) bytes_per_element)) elements_per_line
    else some block_size) with
  | none => none
  | some block_size =>
  match cdiv max_lines associativity with
  | none => none
  | some sets =>
  match (if lines_per_block > associativity * sets then
      alignDown (sqrt_int (Int.tdiv (associativity * line_size) bytes_per_element))
        elements_per_line
    else some block_size) with
  | none => none
  | some block_size => some (max 8 (min 64 block_size))

/-! ## Cache geometry probe (`cache_info.h`, lines 21-105) -/

/-- The values of `Relationship` in a `SYSTEM_LOGICAL_PROCESSOR_INFORMATION`. -/
inductive LogicalProcessorRelationship where
  | RelationProcessorCore
  | RelationNumaNode
  | RelationCache
  | RelationProcessorPackage
  | RelationGroup
deriving DecidableEq, Repr

/-- The values of `Type` in a `CACHE_DESCRIPTOR`. -/
inductive ProcessorCacheType where
  | CacheUnified
  | CacheInstruction
  | CacheData
  | CacheTrace
deriving DecidableEq, Repr

/-- A `CACHE_DESCRIPTOR`: `Level` and `Associativity` are bytes, `LineSize` a 16-bit
word and `Size` a 32-bit word, all unsigned; `CacheType` is its field `Type`. -/
structure CacheDescriptor where
  Level : Nat
  Associativity : Nat
  LineSize : Nat
  Size : Nat
  CacheType : ProcessorCacheType
deriving DecidableEq, Repr

/-- One `SYSTEM_LOGICAL_PROCESSOR_INFORMATION` record of the buffer. -/
structure ProcessorInformation where
  Relationship : LogicalProcessorRelationship
  Cache : CacheDescriptor
deriving DecidableEq, Repr

/-- What the platform answers to the queries of `get_cache_info`, one constructor
per branch of the conditional compilation.

* `windows`: whether `malloc` returned a buffer, whether the second
  `GetLogicalProcessorInformation` call succeeded, and the records it wrote.
* `linux`: the three `sysconf` results (`none` when the `_SC_LEVEL1_DCACHE_SIZE`
  keys are not defined at compile time) and the lines of `/proc/cpuinfo` (no line
  when the file cannot be read).
* `apple`: the value written by each `sysctlbyname` call, `none` when the call
  returns `-1`. -/
inductive Platform where
  | windows (mallocOk queryOk : Bool) (buffer : List ProcessorInformation)
  | linux (sysconf : Option (Int × Int × Int)) (cpuinfo : List String)
  | apple (l1dcachesize cachelinesize cacheconfig : Option Int)

/-- The test `line.find(pat) != std::string::npos`. -/
def containsSubstr (pat : List Char) : List Char → Bool
  | [] => pat.isEmpty
  | c :: cs => pat.isPrefixOf (c :: cs) || containsSubstr pat cs

/-- The expression `line.substr(line.find(":") + 1)`: the text after the first
colon, and the whole line when there is none (`npos + 1` is `0`). -/
def afterColon (line : List Char) : List Char :=
  match line.dropWhile (fun c => c != ':') with
  | [] => line
  | _ :: rest => rest

/-- The C `isspace` test in the default locale. -/
def isSpace (c : Char) : Bool :=
  c == ' ' || c == '\t' || c == '\n' || c == '\r' || c.toNat == 11 || c.toNat == 12

/-- The value of a run of decimal digits. -/
def digitsValue (ds : List Char) : Nat :=
  ds.foldl (fun acc c => 10 * acc + (c.toNat - 48)) 0

/-- The call `std::stol(s)`: leading white space, an optional sign, then decimal
digits.  It throws (`none`) when there is no digit (`std::invalid_argument`) and
when the value does not fit a 64-bit `long` (`std::out_of_range`). -/
def stol (s : List Char) : Option Int :=
  let s := s.dropWhile isSpace
  let negative := s.head? == some '-'
  let s := if s.head? == some '-' || s.head? == some '+' then s.tail else s
  let digits := s.takeWhile Char.isDigit
  if digits.isEmpty then none
  else
    let v : Int := if negative then -(digitsValue digits : Int) else (digitsValue digits : Int)
    if v < -9223372036854775808 ∨ 9223372036854775807 < v then none else some v

/-- The body of the descriptor loop (lines 31-47), run over the records from the
current one on; it stops (`break`) at the first level-1 data cache. -/
def scanDescriptors (info : CacheInfo) : List ProcessorInformation → Option CacheInfo
  | [] => some info
  | d :: rest =>
    if d.Relationship = LogicalProcessorRelationship.RelationCache ∧ d.Cache.Level = 1 ∧
        d.Cache.CacheType = ProcessorCacheType.CacheData then
      let l1d_size := wrap32 d.Cache.Size
      let line_size : Int := d.Cache.LineSize
      match cdiv l1d_size line_size with
      | none => none
      | some _total_lines =>
        let associativity : Int := d.Cache.Associativity
        let associativity := if associativity = 0 ∨ associativity = 255 then 8
          else associativity
        some ⟨l1d_size, line_size, associativity⟩
    else scanDescriptors info rest

/-- The body of the `/proc/cpuinfo` loop (lines 62-69) for one line. -/
def scanCpuinfoLine (info : CacheInfo) (line : List Char) : Option CacheInfo :=
  match (if containsSubstr "cache_alignment".toList line ∧ info.line_size ≤ 0 then
      match stol (afterColon line) with
      | none => none
      | some v => some (CacheInfo.mk info.l1d_size v info.associativity)
    else some info) with
  | none => none
  | some info =>
    if containsSubstr "L1d cache".toList line ∧ info.l1d_size ≤ 0 then
      match stol (afterColon line) with
      | none => none
      | some v => some (CacheInfo.mk (wrap64 (v * 1024)) info.line_size info.associativity)
    else some info

/-- The `while (std::getline(cpuinfo, line))` loop (lines 61-70). -/
def scanCpuinfo (info : CacheInfo) : List String → Option CacheInfo
  | [] => some info
  | line :: rest =>
    match scanCpuinfoLine info line.toList with
    | none => none
    | some info => scanCpuinfo info rest

/-- The associativity guess from the recovered size and line size (lines 72-79). -/
def guessAssociativity (info : CacheInfo) : Option CacheInfo :=
  if info.l1d_size > 0 ∧ info.line_size > 0 then
    match cdiv info.l1d_size info.line_size with
    | none => none
    | some total_lines =>
      let associativity : Int :=
        if Int.tmod total_lines 12 = 0 then 12
        else if Int.tmod total_lines 8 = 0 then 8
        else if Int.tmod total_lines 4 = 0 then 4
        else 8
      some ⟨info.l1d_size, info.line_size, associativity⟩
  else some info

/-- The final normalization (lines 100-102). -/
def normalize (info : CacheInfo) : CacheInfo :=
  let l1d_size := if info.l1d_size ≤ 0 then 32768 else info.l1d_size
  let line_size := if info.line_size ≤ 0 then 64 else info.line_size
  let associativity := if info.associativity ≤ 0 then 8 else info.associativity
  ⟨l1d_size, line_size, associativity⟩

/-- The function `get_cache_info()` as a function of the platform's answers.  The
result is `none` when a division by zero or an uncaught exception is reached. -/
def get_cache_info (p : Platform) : Option CacheInfo :=
  let info : CacheInfo := ⟨-1, -1, -1⟩
  match p with
  | Platform.windows mallocOk queryOk buffer =>
    if !mallocOk then some info
    else
      match (if queryOk then scanDescriptors info buffer else some info) with
      | none => none
      | some info => some (normalize info)
  | Platform.linux none _ => some (normalize info)
  | Platform.linux (some (sc_size, sc_linesize, sc_assoc)) cpuinfo =>
    let info : CacheInfo := ⟨sc_size, sc_linesize, info.associativity⟩
    if sc_assoc > 0 then
      some (normalize ⟨info.l1d_size, info.line_size, wrap32 sc_assoc⟩)
    else
      match scanCpuinfo info cpuinfo with
      | none => none
      | some info =>
        match guessAssociativity info with
        | none => none
        | some info => some (normalize info)
  | Platform.apple l1dcachesize cachelinesize cacheconfig =>
    let l1d_size := match l1dcachesize with
      | some v => v
      | none => -1
    let line_size := match cachelinesize with
      | some v => v
      | none => -1
    let associativity := match cacheconfig with
      | some assoc => assoc
      | none => 8
    some (normalize ⟨l1d_size, line_size, associativity⟩)

/-! ## Benchmark driver (`main.cpp`, lines 39-45 and 143-170) -/

/-- The function `initialize_matrix(matrix, m, n)`; the `int` value `i * n + j` is
reduced to 32 bits. -/
def initialize_matrix (fuel : Nat) (matrix : Matrix) (m n : Int) : Option Matrix :=
  forLoop fuel 0 m 1 (fun i a =>
    forLoop fuel 0 n 1 (fun j a => a.write i j (wrap32 (i * n + j))) a) matrix

/-- The declaration `std::vector<std::vector<int>> a(r, std::vector<int>(c))`: `r`
rows of `c` zeros.  A negative count makes the constructor throw. -/
def allocMatrix (r c : Int) : Option Matrix :=
  if 0 ≤ r ∧ 0 ≤ c then some (List.replicate r.toNat (List.replicate c.toNat 0)) else none

/-- The statement `std::fill(dst.begin(), dst.end(), std::vector<int>(m, 0))`. -/
def fillZero (dst : Matrix) (m : Int) : Option Matrix :=
  if 0 ≤ m then some (dst.map (fun _ => List.replicate m.toNat 0)) else none

/-- The label of a row of the timing table: a block size, or `Naive`. -/
inductive RowLabel where
  | blockSize (bs : Int)
  | naive
deriving DecidableEq, Repr

/-- The function `measure_transpose_time`: one run of the blocked kernel.  The
elapsed time it returns is not modelled; the value here is the final `dst`. -/
def measure_transpose_time (fuel : Nat) (src dst : Matrix) (m n block_size : Int) :
    Option Matrix :=
  transpose_blocked fuel src dst m n block_size

/-- The loop `for (int bs : block_sizes)` of `main` (lines 156-160): the state is
`dst` and the rows printed so far. -/
def timeCandidates (fuel : Nat) (src : Matrix) (m n : Int) :
    List Int → Matrix × List RowLabel → Option (Matrix × List RowLabel)
  | [], st => some st
  | bs :: rest, (dst, rows) =>
    match fillZero dst m with
    | none => none
    | some dst =>
      match measure_transpose_time fuel src dst m n bs with
      | none => none
      | some dst => timeCandidates fuel src m n rest (dst, rows ++ [RowLabel.blockSize bs])

/-- What a run of `main` produces, apart from the elapsed times. -/
structure BenchmarkResult where
  predicted_block_size : Int
  block_sizes : List Int
  rows : List RowLabel
  dst : Matrix
deriving DecidableEq, Repr

/-- The function `main` from line 143 on, for the parsed dimensions `m`, `n` and the
probed geometry `cache`. -/
def main_benchmark (fuel : Nat) (cache : CacheInfo) (m n : Int) : Option BenchmarkResult :=
  match allocMatrix m n, allocMatrix n m with
  | some src, some dst =>
    match initialize_matrix fuel src m n with
    | none => none
    | some src =>
      match calculate_block_size cache m n with
      | none => none
      | some predicted_block_size =>
        let block_sizes := [8, 16, 32, 64, 128, 256, predicted_block_size]
        match timeCandidates fuel src m n block_sizes (dst, []) with
        | none => none
        | some (dst, rows) =>
          match fillZero dst m with
          | none => none
          | some dst =>
            match transpose_naive fuel src dst m n with
            | none => none
            | some dst => some ⟨predicted_block_size, block_sizes, rows ++ [RowLabel.naive], dst⟩
  | _, _ => none

/-! ## Specification vocabulary -/

/-- Cell `(i, j)` of the source has been copied: `dst[j][i]` holds `src[i][j]`. -/
def Copied (src dst : Matrix) (i j : Int) : Prop :=
  ∃ v, src.read i j = some v ∧ dst.read j i = some v

/-- The destination `d2` keeps every copied cell of `d1`. -/
def Keeps (src d1 d2 : Matrix) : Prop :=
  ∀ i j, Copied src d1 i j → Copied src d2 i j

/-- The destination `d` is the transpose of the `m x n` source: it has `n` rows of
`m` elements and every cell of the source has been copied. -/
def IsTranspose (m n : Nat) (src d : Matrix) : Prop :=
  Matrix.Shape n m d ∧ ∀ i j : Int, 0 ≤ i → i < m → 0 ≤ j → j < n → Copied src d i j

/-- A 2 x 3 matrix. -/
def mat23 : Matrix := [[1, 2, 3], [4, 5, 6]]

/-- The line size the estimator works with: the field if positive, else 64. -/
def effectiveLineSize (cache : CacheInfo) : Int :=
  if cache.line_size > 0 then cache.line_size else 64

/-- The number of elements per cache line, `line_size / sizeof(int)`. -/
def elementsPerLine (cache : CacheInfo) : Int := Int.tdiv (effectiveLineSize cache) 4

/-- The alignment property as the specification words it: the estimate is a
multiple of `elementsPerLine` when `elementsPerLine ≤ 8`, and otherwise equals a
boundary of the clamp range. -/
def SpecAlignment (cache : CacheInfo) (m n : Int) : Prop :=
  ∃ r, calculate_block_size cache m n = some r ∧
    if elementsPerLine cache ≤ 8 then elementsPerLine cache ∣ r else r = 8 ∨ r = 64

/-- The geometry with the estimator's own defaults applied field by field:
48 KiB, 64-byte lines, 8 ways. -/
def withEstimatorDefaults (c : CacheInfo) : CacheInfo :=
  ⟨if c.l1d_size ≤ 0 then 49152 else c.l1d_size,
   if c.line_size ≤ 0 then 64 else c.line_size,
   if c.associativity ≤ 0 then 8 else c.associativity⟩

/-- The associativity guess as the specification words it: 12 if the number of
lines is divisible by 12, otherwise 8 if divisible by 8, otherwise 4 if divisible by
4, otherwise 8. -/
def specAssociativityGuess (total_lines : Int) : Int :=
  if 12 ∣ total_lines then 12
  else if 8 ∣ total_lines then 8
  else if 4 ∣ total_lines then 4
  else 8

/-- The record is a cache, of level 1 and of type data. -/
def IsL1Data (d : ProcessorInformation) : Prop :=
  d.Relationship = LogicalProcessorRelationship.RelationCache ∧ d.Cache.Level = 1 ∧
    d.Cache.CacheType = ProcessorCacheType.CacheData

instance (d : ProcessorInformation) : Decidable (IsL1Data d) := by
  unfold IsL1Data; infer_instance

/-- The geometry read off a descriptor as the specification words it: size and line
size copied, associativity copied unless it is 0 or 0xFF, when 8 is substituted. -/
def specDescriptorGeometry (d : CacheDescriptor) : CacheInfo :=
  ⟨d.Size, d.LineSize,
    if d.Associativity = 0 ∨ d.Associativity = 255 then 8 else d.Associativity⟩

/-- Sample records before the first level-1 data cache: a processor core and a
level-1 instruction cache. -/
def sampleBefore : List ProcessorInformation :=
  [⟨LogicalProcessorRelationship.RelationProcessorCore,
      ⟨0, 0, 0, 0, ProcessorCacheType.CacheUnified⟩⟩,
    ⟨LogicalProcessorRelationship.RelationCache,
      ⟨1, 8, 64, 32768, ProcessorCacheType.CacheInstruction⟩⟩]

/-- Sample level-1 data cache: 48 KiB, 64-byte lines, associativity unknown (0xFF). -/
def sampleFirst : ProcessorInformation :=
  ⟨LogicalProcessorRelationship.RelationCache,
    ⟨1, 255, 64, 49152, ProcessorCacheType.CacheData⟩⟩

/-- Sample records after it: another level-1 data cache. -/
def sampleAfter : List ProcessorInformation :=
  [⟨LogicalProcessorRelationship.RelationCache,
    ⟨1, 4, 32, 16384, ProcessorCacheType.CacheData⟩⟩]

/-- The L1D size the estimator works with (line 74): the field if positive, else
49152. -/
def effectiveL1dSize (cache : CacheInfo) : Int :=
  if cache.l1d_size > 0 then cache.l1d_size else 49152

/-- The associativity the estimator works with (line 76): the field if positive,
else 8. -/
def effectiveAssociativity (cache : CacheInfo) : Int :=
  if cache.associativity > 0 then cache.associativity else 8

/-- The value of `block_size` after lines 86-87: the truncated root of
`l1d_size / 8`, aligned down to `elements_per_line`. -/
def alignedCandidate (cache : CacheInfo) : Int :=
  Int.tdiv (sqrt_int (Int.tdiv (effectiveL1dSize cache) 8)) (elementsPerLine cache) *
    elementsPerLine cache

/-- The value of `block_size` after line 88: the aligned candidate clamped to
`min(m, n)`. -/
def clampedCandidate (cache : CacheInfo) (m n : Int) : Int :=
  min (alignedCandidate cache) (min m n)

/-- The value of `lines_per_block` (line 91). -/
def linesPerBlock (cache : CacheInfo) (m n : Int) : Int :=
  Int.tdiv (wrap32 (clampedCandidate cache m n * clampedCandidate cache m n) * 4)
    (effectiveLineSize cache)

/-- The value of `total_lines` (line 92). -/
def totalLines (cache : CacheInfo) (m n : Int) : Int := 2 * linesPerBlock cache m n

/-- The value of `max_lines` (line 93). -/
def maxLines (cache : CacheInfo) : Int :=
  Int.tdiv (effectiveL1dSize cache) (effectiveLineSize cache)

/-- The value of `sets` (line 100). -/
def cacheSets (cache : CacheInfo) : Int :=
  Int.tdiv (maxLines cache) (effectiveAssociativity cache)

/-- The estimator with the capacity branch (lines 94-97) taken out. -/
def estimateWithoutShrink (cache : CacheInfo) (m n : Int) : Option Int :=
  match (if linesPerBlock cache m n > effectiveAssociativity cache * cacheSets cache then
      alignDown (sqrt_int (Int.tdiv (effectiveAssociativity cache * effectiveLineSize cache) 4))
        (elementsPerLine cache)
    else some (clampedCandidate cache m n)) with
  | none => none
  | some block_size => some (max 8 (min 64 block_size))

/-- The innermost statement replaced by a record of where it runs: the index pair
`(ii, jj)` is appended to the log. -/
def recordVisit (ii jj : Int) (log : List (Int × Int)) : Option (List (Int × Int)) :=
  some (log ++ [(ii, jj)])

/-- The index pairs at which the loop nest of `transpose_blocked` runs its innermost
statement, in order. -/
def blockedVisits (fuel : Nat) (m n block_size : Int) : Option (List (Int × Int)) :=
  blockedLoops fuel m n block_size recordVisit []

/-- The index pairs at which the loop nest of `transpose_naive` runs its innermost
statement, in order. -/
def naiveVisits (fuel : Nat) (m n : Int) : Option (List (Int × Int)) :=
  naiveLoops fuel m n recordVisit []

/-- The assignment `dst[jj][ii] = src[ii][jj]` together with the record of its index
pair. -/
def assignAndRecord (src : Matrix) (ii jj : Int) (st : Matrix × List (Int × Int)) :
    Option (Matrix × List (Int × Int)) :=
  match assignTransposed src ii jj st.1, recordVisit ii jj st.2 with
  | some d, some log => some (d, log)
  | _, _ => none

/-- The kernel `transpose_blocked` run together with the log of its assignments. -/
def transpose_blocked_traced (fuel : Nat) (src dst : Matrix) (m n block_size : Int) :
    Option (Matrix × List (Int × Int)) :=
  blockedLoops fuel m n block_size (assignAndRecord src) (dst, [])

/-- The kernel `transpose_naive` run together with the log of its assignments. -/
def transpose_naive_traced (fuel : Nat) (src dst : Matrix) (m n : Int) :
    Option (Matrix × List (Int × Int)) :=
  naiveLoops fuel m n (assignAndRecord src) (dst, [])

/-! # Theorems -/

/-! ## Loops: the coverage lemma -/

theorem forLoop_cover {σ : Type} (Inv : σ → Prop) (le : σ → σ → Prop) (D : Int → σ → Prop)
    (le_refl : ∀ s, le s s) (le_trans : ∀ a b c, le a b → le b c → le a c)
    (D_mono : ∀ k a b, le a b → D k a → D k b)
    (start stop step : Int) (hstep : 1 ≤ step) (body : Int → σ → Option σ)
    (hbody : ∀ i s, start ≤ i → i < stop → Inv s →
      ∃ s', body i s = some s' ∧ Inv s' ∧ le s s' ∧
        ∀ k, i ≤ k → k < i + step → k < stop → D k s')
    (fuel : Nat) (i : Int) (hi : start ≤ i) (hfuel : stop - i ≤ fuel) (s : σ) (hs : Inv s) :
    ∃ s', forLoop fuel i stop step body s = some s' ∧ Inv s' ∧ le s s' ∧
      ∀ k, i ≤ k → k < stop → D k s' := by
  induction fuel generalizing i s with
  | zero =>
    have hge : ¬ i < stop := by simp at hfuel; omega
    refine ⟨s, ?_, hs, le_refl s, ?_⟩
    · unfold forLoop; simp [hge]
    · intro k hk1 hk2; omega
  | succ fuel ih =>
    by_cases hlt : i < stop
    · obtain ⟨s1, hb, hinv1, hle1, hD1⟩ := hbody i s hi hlt hs
      obtain ⟨s2, hrun, hinv2, hle2, hD2⟩ :=
        ih (i + step) (by omega) (by push_cast at hfuel ⊢; omega) s1 hinv1
      refine ⟨s2, ?_, hinv2, le_trans _ _ _ hle1 hle2, ?_⟩
      · rw [forLoop]; simp [hlt, hb, hrun]
      · intro k hk1 hk2
        by_cases hk : k < i + step
        · exact D_mono k s1 s2 hle2 (hD1 k hk1 hk hk2)
        · exact hD2 k (by omega) hk2
    · refine ⟨s, ?_, hs, le_refl s, ?_⟩
      · unfold forLoop; simp [hlt]
      · intro k hk1 hk2; omega

/-! ## Matrices: reads and writes -/

theorem Matrix.read_of_shape {r c : Nat} {a : Matrix} (ha : Matrix.Shape r c a) {i j : Int}
    (hi0 : 0 ≤ i) (hi : i < r) (hj0 : 0 ≤ j) (hj : j < c) :
    ∃ v, a.read i j = some v := by
  obtain ⟨hlen, hrows⟩ := ha
  have h1 : i.toNat < a.length := by omega
  have hrow : (a[i.toNat]).length = c := hrows _ (List.getElem_mem _)
  have h2 : j.toNat < (a[i.toNat]).length := by omega
  refine ⟨(a[i.toNat])[j.toNat], ?_⟩
  simp [Matrix.read, hi0, hj0, List.getElem?_eq_getElem h1, List.getElem?_eq_getElem h2]

theorem Matrix.write_of_shape {r c : Nat} {a : Matrix} (ha : Matrix.Shape r c a) {i j : Int}
    (hi0 : 0 ≤ i) (hi : i < r) (hj0 : 0 ≤ j) (hj : j < c) (v : Int) :
    ∃ a', a.write i j v = some a' ∧ Matrix.Shape r c a' ∧ a'.read i j = some v ∧
      ∀ i' j', (i' ≠ i ∨ j' ≠ j) → a'.read i' j' = a.read i' j' := by
  obtain ⟨hlen, hrows⟩ := ha
  have h1 : i.toNat < a.length := by omega
  have hrow : (a[i.toNat]).length = c := hrows _ (List.getElem_mem _)
  have h2 : j.toNat < (a[i.toNat]).length := by omega
  refine ⟨a.set i.toNat ((a[i.toNat]).set j.toNat v), ?_, ⟨?_, ?_⟩, ?_, ?_⟩
  · simp [Matrix.write, hi0, hj0, List.getElem?_eq_getElem h1, h2]
  · simpa using hlen
  · intro row hmem
    rcases List.mem_or_eq_of_mem_set hmem with h | h
    · exact hrows row h
    · rw [h]; simpa using hrow
  · simp [Matrix.read, hi0, hj0, h1, h2]
  · intro i' j' hne
    unfold Matrix.read
    by_cases hc : 0 ≤ i' ∧ 0 ≤ j'
    · simp only [hc, and_self, if_true]
      by_cases hii : i.toNat = i'.toNat
      · have hjj : j.toNat ≠ j'.toNat := by omega
        rw [← hii]
        simp [h1, List.getElem?_eq_getElem h1, List.getElem?_set_ne hjj]
      · rw [List.getElem?_set_ne hii]
    · simp [hc]

theorem assignTransposed_spec {m n : Nat} {src d : Matrix} (hsrc : Matrix.Shape m n src)
    (hd : Matrix.Shape n m d) {i j : Int} (hi0 : 0 ≤ i) (hi : i < m) (hj0 : 0 ≤ j)
    (hj : j < n) :
    ∃ d', assignTransposed src i j d = some d' ∧ Matrix.Shape n m d' ∧ Keeps src d d' ∧
      Copied src d' i j := by
  obtain ⟨v, hv⟩ := Matrix.read_of_shape hsrc hi0 hi hj0 hj
  obtain ⟨d', hw, hshape, hread, hother⟩ := Matrix.write_of_shape hd hj0 hj hi0 hi v
  refine ⟨d', ?_, hshape, ?_, ⟨v, hv, hread⟩⟩
  · simp [assignTransposed, hv, hw]
  · rintro i' j' ⟨w, hw1, hw2⟩
    by_cases h : j' ≠ j ∨ i' ≠ i
    · exact ⟨w, hw1, by rw [hother j' i' h]; exact hw2⟩
    · have hj' : j' = j := by omega
      have hi' : i' = i := by omega
      subst hj' hi'
      exact ⟨v, hv, hread⟩

theorem Keeps.refl (src d : Matrix) : Keeps src d d := fun _ _ h => h

theorem Keeps.trans (src a b c : Matrix) (h1 : Keeps src a b) (h2 : Keeps src b c) :
    Keeps src a c := fun i j h => h2 i j (h1 i j h)

/-! ## Transpose kernels: what a run leaves in the destination -/

theorem row_loop_spec {m n : Nat} {src : Matrix} (hsrc : Matrix.Shape m n src)
    (fuel : Nat) (hfuel : n ≤ fuel) (ii : Int) (hi0 : 0 ≤ ii) (hi : ii < m)
    (j0 j1 : Int) (hj0 : 0 ≤ j0) (hj1 : j1 ≤ n) (d : Matrix) (hd : Matrix.Shape n m d) :
    ∃ d', forLoop fuel j0 j1 1 (fun jj d => assignTransposed src ii jj d) d = some d' ∧
      Matrix.Shape n m d' ∧ Keeps src d d' ∧
      ∀ jj, j0 ≤ jj → jj < j1 → Copied src d' ii jj := by
  refine forLoop_cover (Matrix.Shape n m) (Keeps src) (fun k d => Copied src d ii k)
    (Keeps.refl src) (Keeps.trans src) (fun k a b hab h => hab ii k h) j0 j1 1 (le_refl 1) _
    ?_ fuel j0 (le_refl j0) (by omega) d hd
  intro j s hj hjlt hs
  obtain ⟨d', h1, h2, h3, h4⟩ :=
    assignTransposed_spec hsrc hs hi0 hi (by omega : 0 ≤ j) (by omega : j < n)
  refine ⟨d', h1, h2, h3, ?_⟩
  intro k hk1 hk2 _
  have : k = j := by omega
  subst this
  exact h4

theorem tile_spec {m n : Nat} {src : Matrix} (hsrc : Matrix.Shape m n src)
    (fuel : Nat) (hfm : m ≤ fuel) (hfn : n ≤ fuel)
    (i0 i1 : Int) (hi0 : 0 ≤ i0) (hi1 : i1 ≤ m)
    (j0 j1 : Int) (hj0 : 0 ≤ j0) (hj1 : j1 ≤ n) (d : Matrix) (hd : Matrix.Shape n m d) :
    ∃ d', forLoop fuel i0 i1 1 (fun ii d =>
        forLoop fuel j0 j1 1 (fun jj d => assignTransposed src ii jj d) d) d = some d' ∧
      Matrix.Shape n m d' ∧ Keeps src d d' ∧
      ∀ ii jj, i0 ≤ ii → ii < i1 → j0 ≤ jj → jj < j1 → Copied src d' ii jj := by
  obtain ⟨d', h1, h2, h3, h4⟩ := forLoop_cover (Matrix.Shape n m) (Keeps src)
    (fun k d => ∀ jj, j0 ≤ jj → jj < j1 → Copied src d k jj)
    (Keeps.refl src) (Keeps.trans src) (fun k a b hab h jj hj hj' => hab k jj (h jj hj hj'))
    i0 i1 1 (le_refl 1) (fun ii d =>
        forLoop fuel j0 j1 1 (fun jj d => assignTransposed src ii jj d) d)
    (by
      intro i s hi hilt hs
      obtain ⟨d', h1, h2, h3, h4⟩ :=
        row_loop_spec hsrc fuel hfn i (by omega) (by omega) j0 j1 hj0 hj1 s hs
      refine ⟨d', h1, h2, h3, ?_⟩
      intro k hk1 hk2 _
      have : k = i := by omega
      subst this
      exact h4)
    fuel i0 (le_refl i0) (by omega) d hd
  exact ⟨d', h1, h2, h3, fun ii jj a b c e => h4 ii a b jj c e⟩

theorem transpose_naive_spec {m n : Nat} {src : Matrix} (hsrc : Matrix.Shape m n src)
    (fuel : Nat) (hfm : m ≤ fuel) (hfn : n ≤ fuel) (d : Matrix) (hd : Matrix.Shape n m d) :
    ∃ d', transpose_naive fuel src d m n = some d' ∧ IsTranspose m n src d' := by
  obtain ⟨d', h1, h2, _, h4⟩ :=
    tile_spec hsrc fuel hfm hfn 0 m (le_refl 0) (le_refl _) 0 n (le_refl 0) (le_refl _) d hd
  exact ⟨d', h1, h2, fun i j a b c e => h4 i j a b c e⟩

theorem transpose_blocked_spec {m n : Nat} {src : Matrix} (hsrc : Matrix.Shape m n src)
    (fuel : Nat) (hfm : m ≤ fuel) (hfn : n ≤ fuel) (block_size : Int) (hbs : 1 ≤ block_size)
    (d : Matrix) (hd : Matrix.Shape n m d) :
    ∃ d', transpose_blocked fuel src d m n block_size = some d' ∧
      IsTranspose m n src d' := by
  obtain ⟨d', h1, h2, _, h4⟩ := forLoop_cover (Matrix.Shape n m) (Keeps src)
    (fun k d => ∀ jj : Int, 0 ≤ jj → jj < n → Copied src d k jj)
    (Keeps.refl src) (Keeps.trans src) (fun k a b hab h jj hj hj' => hab k jj (h jj hj hj'))
    0 m block_size hbs (fun i d =>
      forLoop fuel 0 n block_size (fun j d =>
        let i_max := min (i + block_size) m
        let j_max := min (j + block_size) n
        forLoop fuel i i_max 1 (fun ii d =>
          forLoop fuel j j_max 1 (fun jj d => assignTransposed src ii jj d) d) d) d)
    (by
      intro i s hi hilt hs
      obtain ⟨d', h1, h2, h3, h4⟩ := forLoop_cover (Matrix.Shape n m) (Keeps src)
        (fun k d => ∀ ii : Int, i ≤ ii → ii < min (i + block_size) m → Copied src d ii k)
        (Keeps.refl src) (Keeps.trans src)
        (fun k a b hab h ii hi hi' => hab ii k (h ii hi hi'))
        0 n block_size hbs (fun j d =>
          let i_max := min (i + block_size) m
          let j_max := min (j + block_size) n
          forLoop fuel i i_max 1 (fun ii d =>
            forLoop fuel j j_max 1 (fun jj d => assignTransposed src ii jj d) d) d)
        (by
          intro j s hj hjlt hs
          obtain ⟨d', h1, h2, h3, h4⟩ := tile_spec hsrc fuel hfm hfn
            i (min (i + block_size) m) hi (min_le_right _ _)
            j (min (j + block_size) n) hj (min_le_right _ _) s hs
          refine ⟨d', h1, h2, h3, ?_⟩
          intro k hk1 hk2 hk3 ii hii1 hii2
          exact h4 ii k hii1 hii2 hk1 (lt_min hk2 hk3))
        fuel 0 (le_refl 0) (by omega) s hs
      refine ⟨d', h1, h2, h3, ?_⟩
      intro k hk1 hk2 hk3 jj hjj1 hjj2
      exact h4 jj hjj1 hjj2 k hk1 (lt_min hk2 hk3))
    fuel 0 (le_refl 0) (by omega) d hd
  exact ⟨d', h1, h2, fun i j a b c e => h4 i a b j c e⟩

theorem IsTranspose.unique {m n : Nat} {src d1 d2 : Matrix} (h1 : IsTranspose m n src d1)
    (h2 : IsTranspose m n src d2) : d1 = d2 := by
  obtain ⟨⟨hl1, hr1⟩, hc1⟩ := h1
  obtain ⟨⟨hl2, hr2⟩, hc2⟩ := h2
  apply List.ext_getElem (by omega)
  intro j hj1 hj2
  have hrow1 : (d1[j]).length = m := hr1 _ (List.getElem_mem _)
  have hrow2 : (d2[j]).length = m := hr2 _ (List.getElem_mem _)
  apply List.ext_getElem (by omega)
  intro i hi1 hi2
  obtain ⟨v, hv, hd1⟩ := hc1 i j (by omega) (by omega) (by omega) (by omega)
  obtain ⟨w, hw, hd2⟩ := hc2 i j (by omega) (by omega) (by omega) (by omega)
  have hvw : v = w := by rw [hv] at hw; exact Option.some.inj hw
  subst hvw
  simp [Matrix.read, List.getElem?_eq_getElem hj1, List.getElem?_eq_getElem hj2,
    List.getElem?_eq_getElem hi1, List.getElem?_eq_getElem hi2] at hd1 hd2
  rw [hd1, hd2]

/-! ## Claims on the transpose kernels -/

/-- C1: for an `m x n` source, an `n x m` destination and a block size of at least 1
(smaller than, equal to or larger than the dimensions), `transpose_blocked` and
`transpose_naive` both return, and leave the same destination. -/
theorem transpose_blocked_eq_naive (m n : Nat) (src dst : Matrix) (block_size : Int)
    (fuel fuel' : Nat) (hsrc : Matrix.Shape m n src) (hdst : Matrix.Shape n m dst)
    (hbs : 1 ≤ block_size) (hfuel : m ≤ fuel ∧ n ≤ fuel) (hfuel' : m ≤ fuel' ∧ n ≤ fuel') :
    ∃ out, transpose_blocked fuel src dst m n block_size = some out ∧
      transpose_naive fuel' src dst m n = some out := by
  obtain ⟨b, hb, hbt⟩ :=
    transpose_blocked_spec hsrc fuel hfuel.1 hfuel.2 block_size hbs dst hdst
  obtain ⟨a, ha, hat⟩ := transpose_naive_spec hsrc fuel' hfuel'.1 hfuel'.2 dst hdst
  exact ⟨b, hb, by rw [ha, IsTranspose.unique hat hbt]⟩

/-- C1, worked scenario: the 4 x 4 source with block size 2 gives the destination
`[[0,4,8,12],[1,5,9,13],[2,6,10,14],[3,7,11,15]]` from both kernels. -/
theorem transpose_blocked_eq_naive_witness :
    Matrix.Shape 4 4 src4 ∧ Matrix.Shape 4 4 zero4 ∧
    transpose_blocked 4 src4 zero4 4 4 2 = some src4T ∧
    transpose_naive 4 src4 zero4 4 4 = some src4T ∧
    ∃ out, transpose_blocked 4 src4 zero4 (4 : Nat) (4 : Nat) 2 = some out ∧
      transpose_naive 4 src4 zero4 (4 : Nat) (4 : Nat) = some out :=
  ⟨by decide, by decide, by decide!, by decide!,
    transpose_blocked_eq_naive 4 4 src4 zero4 2 4 4 (by decide) (by decide) (by decide)
      (by decide) (by decide)⟩

/-- C2: after `transpose_naive(src, dst, m, n)` the destination is still `n x m`, it
holds `dst[j][i] = src[i][j]` for all `i < m`, `j < n`, and it is the same whatever
the destination held before. -/
theorem transpose_naive_correct (m n : Nat) (src dst : Matrix) (fuel : Nat)
    (hsrc : Matrix.Shape m n src) (hdst : Matrix.Shape n m dst)
    (hfuel : m ≤ fuel ∧ n ≤ fuel) :
    ∃ out, transpose_naive fuel src dst m n = some out ∧ Matrix.Shape n m out ∧
      (∀ i j : Nat, i < m → j < n →
        ∃ v, src.read i j = some v ∧ out.read j i = some v) ∧
      ∀ dst', Matrix.Shape n m dst' → transpose_naive fuel src dst' m n = some out := by
  obtain ⟨a, ha, hat⟩ := transpose_naive_spec hsrc fuel hfuel.1 hfuel.2 dst hdst
  refine ⟨a, ha, hat.1, ?_, ?_⟩
  · intro i j hi hj
    exact hat.2 i j (by omega) (by omega) (by omega) (by omega)
  · intro dst' hdst'
    obtain ⟨a', ha', hat'⟩ := transpose_naive_spec hsrc fuel hfuel.1 hfuel.2 dst' hdst'
    rw [ha', IsTranspose.unique hat' hat]

/-- C2 at the 4 x 4 scenario. -/
theorem transpose_naive_correct_witness :
    Matrix.Shape 4 4 src4 ∧ Matrix.Shape 4 4 zero4 ∧
    ∃ out, transpose_naive 4 src4 zero4 (4 : Nat) (4 : Nat) = some out ∧
      Matrix.Shape 4 4 out ∧
      (∀ i j : Nat, i < 4 → j < 4 →
        ∃ v, src4.read i j = some v ∧ out.read j i = some v) ∧
      ∀ dst', Matrix.Shape 4 4 dst' →
        transpose_naive 4 src4 dst' (4 : Nat) (4 : Nat) = some out :=
  ⟨by decide, by decide,
    transpose_naive_correct 4 4 src4 zero4 4 (by decide) (by decide) (by decide)⟩

theorem IsTranspose.symm {m n : Nat} {src d : Matrix} (hsrc : Matrix.Shape m n src)
    (h : IsTranspose m n src d) : IsTranspose n m d src := by
  refine ⟨hsrc, ?_⟩
  intro i j hi0 hi hj0 hj
  obtain ⟨v, hv, hd⟩ := h.2 j i hj0 hj hi0 hi
  exact ⟨v, hd, hv⟩

/-- C3: round trip.  Transposing a `rows x cols` matrix `M` into a `cols x rows`
matrix and transposing the result back into a `rows x cols` matrix gives `M` again,
for the naive kernel and for the blocked kernel with any block sizes of at least 1
in the two passes. -/
theorem transpose_round_trip (rows cols : Nat) (M d1 d2 : Matrix) (bs1 bs2 : Int)
    (fuel : Nat) (hM : Matrix.Shape rows cols M) (hd1 : Matrix.Shape cols rows d1)
    (hd2 : Matrix.Shape rows cols d2) (hbs1 : 1 ≤ bs1) (hbs2 : 1 ≤ bs2)
    (hfuel : rows ≤ fuel ∧ cols ≤ fuel) :
    (∃ t, transpose_naive fuel M d1 rows cols = some t ∧
      transpose_naive fuel t d2 cols rows = some M) ∧
    (∃ t, transpose_blocked fuel M d1 rows cols bs1 = some t ∧
      transpose_blocked fuel t d2 cols rows bs2 = some M) := by
  constructor
  · obtain ⟨t, ht, htt⟩ := transpose_naive_spec hM fuel hfuel.1 hfuel.2 d1 hd1
    obtain ⟨u, hu, hut⟩ := transpose_naive_spec htt.1 fuel hfuel.2 hfuel.1 d2 hd2
    exact ⟨t, ht, by rw [hu, IsTranspose.unique hut (IsTranspose.symm hM htt)]⟩
  · obtain ⟨t, ht, htt⟩ := transpose_blocked_spec hM fuel hfuel.1 hfuel.2 bs1 hbs1 d1 hd1
    obtain ⟨u, hu, hut⟩ :=
      transpose_blocked_spec htt.1 fuel hfuel.2 hfuel.1 bs2 hbs2 d2 hd2
    exact ⟨t, ht, by rw [hu, IsTranspose.unique hut (IsTranspose.symm hM htt)]⟩

/-- C3 at a 2 x 3 matrix with block sizes 7 (larger than the matrix) and 2. -/
theorem transpose_round_trip_witness :
    Matrix.Shape 2 3 mat23 ∧
    (∃ t, transpose_naive 3 mat23 [[0, 0], [0, 0], [0, 0]] (2 : Nat) (3 : Nat) = some t ∧
      transpose_naive 3 t [[0, 0, 0], [0, 0, 0]] (3 : Nat) (2 : Nat) = some mat23) ∧
    (∃ t, transpose_blocked 3 mat23 [[0, 0], [0, 0], [0, 0]] (2 : Nat) (3 : Nat) 7 = some t ∧
      transpose_blocked 3 t [[0, 0, 0], [0, 0, 0]] (3 : Nat) (2 : Nat) 2 = some mat23) :=
  ⟨by decide, transpose_round_trip 2 3 mat23 [[0, 0], [0, 0], [0, 0]] [[0, 0, 0], [0, 0, 0]]
    7 2 3 (by decide) (by decide) (by decide) (by decide) (by decide) (by decide)⟩

/-! ## Block-size estimator -/

theorem isqrtBits_spec (x k r : Nat) (h1 : r * r ≤ x) (h2 : x < (r + 2 ^ k) * (r + 2 ^ k)) :
    isqrtBits x k r * isqrtBits x k r ≤ x ∧
      x < (isqrtBits x k r + 1) * (isqrtBits x k r + 1) := by
  induction k generalizing r with
  | zero => simpa [isqrtBits] using And.intro h1 h2
  | succ k ih =>
    rw [isqrtBits]
    split
    · next h =>
      apply ih _ h
      have : r + 2 ^ k + 2 ^ k = r + 2 ^ (k + 1) := by rw [pow_succ]; omega
      rw [this]; exact h2
    · next h => exact ih _ h1 (by omega)

theorem sqrt_int_spec (x : Int) (h0 : 0 ≤ x) (h : x < 18446744073709551616) :
    0 ≤ sqrt_int x ∧ sqrt_int x * sqrt_int x ≤ x ∧ x < (sqrt_int x + 1) * (sqrt_int x + 1) := by
  have hs := isqrtBits_spec x.toNat 32 0 (by simp) (by norm_num; omega)
  unfold sqrt_int
  refine ⟨by positivity, ?_, ?_⟩
  · have := hs.1
    zify at this
    omega
  · have := hs.2
    zify at this
    omega

theorem tdiv_four_pos {x : Int} (h : 4 ≤ x) : 1 ≤ Int.tdiv x 4 := by
  rw [Int.tdiv_eq_ediv (by omega) (by omega)]
  omega

theorem alignDown_eq {b e : Int} (he : e ≠ 0) : alignDown b e = some (Int.tdiv b e * e) := by
  simp [alignDown, cdiv, he]

theorem calculate_block_size_form (cache : CacheInfo) (m n : Int)
    (hline : cache.line_size ≤ 0 ∨ 4 ≤ cache.line_size) :
    ∃ b, calculate_block_size cache m n = some (max 8 (min 64 b)) ∧
      (elementsPerLine cache ∣ b ∨ b = min m n) := by
  have hl : 4 ≤ effectiveLineSize cache := by
    unfold effectiveLineSize; split <;> omega
  have he : Int.tdiv (effectiveLineSize cache) 4 ≠ 0 := by
    have := tdiv_four_pos hl; omega
  have hl0 : effectiveLineSize cache ≠ 0 := by omega
  have ha : (if cache.associativity > 0 then cache.associativity else 8) ≠ 0 := by
    split <;> omega
  unfold calculate_block_size
  simp only [← effectiveLineSize.eq_1 cache, alignDown_eq he, cdiv, hl0, ha, if_false]
  have hmul : ∀ q : Int, Int.tdiv (effectiveLineSize cache) 4 ∣
      q * Int.tdiv (effectiveLineSize cache) 4 := fun q => Dvd.intro_left q rfl
  have hmin : ∀ c0 : Int, Int.tdiv (effectiveLineSize cache) 4 ∣ c0 →
      (Int.tdiv (effectiveLineSize cache) 4 ∣ min c0 (min m n) ∨
        min c0 (min m n) = min m n) := by
    intro c0 hc0
    by_cases hle : c0 ≤ min m n
    · left; rw [min_eq_left hle]; exact hc0
    · right; exact min_eq_right (by omega)
  split_ifs <;>
    first
    | exact ⟨_, rfl, Or.inl (hmul _)⟩
    | exact ⟨_, rfl, hmin _ (hmul _)⟩

theorem calculate_block_size_range (cache : CacheInfo) (m n : Int)
    (hline : cache.line_size ≤ 0 ∨ 4 ≤ cache.line_size) :
    ∃ r, calculate_block_size cache m n = some r ∧ 8 ≤ r ∧ r ≤ 64 := by
  obtain ⟨b, hb, _⟩ := calculate_block_size_form cache m n hline
  exact ⟨_, hb, le_max_left _ _, max_le (by norm_num) (min_le_left _ _)⟩

theorem calculate_block_size_small_line (cache : CacheInfo) (m n : Int)
    (h1 : 1 ≤ cache.line_size) (h3 : cache.line_size ≤ 3) :
    calculate_block_size cache m n = none := by
  have hpos : cache.line_size > 0 := by omega
  have he : Int.tdiv cache.line_size 4 = 0 := by
    rw [Int.tdiv_eq_ediv (by omega) (by omega)]; omega
  unfold calculate_block_size
  simp [hpos, alignDown, cdiv, he]


/-- C4: at the pathological geometry `{1, 1, 1}` named by the specification
`elements_per_line` is `1 / 4 = 0` and the alignment division by it is a division by
zero: the estimator returns no value. -/
theorem calculate_block_size_pathological :
    calculate_block_size ⟨1, 1, 1⟩ 1 1 = none := by decide

/-- C5 as stated fails: a dimension below the aligned candidate is returned as it is
(10 with 16 elements per line), an aligned candidate inside the clamp range is
returned although `elementsPerLine > 8` (16), and the clamp boundary 64 is returned
although it is no multiple of `elementsPerLine = 3`. -/
theorem calculate_block_size_alignment_counterexample :
    ¬ SpecAlignment ⟨32768, 64, 8⟩ 10 10 ∧ ¬ SpecAlignment ⟨2048, 64, 8⟩ 1000 1000 ∧
    ¬ SpecAlignment ⟨49152, 12, 8⟩ 1000 1000 := by
  refine ⟨?_, ?_, ?_⟩
  · rintro ⟨r, hr, h⟩
    have h10 : calculate_block_size ⟨32768, 64, 8⟩ 10 10 = some 10 := by decide
    rw [h10] at hr
    obtain rfl := Option.some.inj hr
    revert h; decide
  · rintro ⟨r, hr, h⟩
    have h16 : calculate_block_size ⟨2048, 64, 8⟩ 1000 1000 = some 16 := by decide
    rw [h16] at hr
    obtain rfl := Option.some.inj hr
    revert h; decide
  · rintro ⟨r, hr, h⟩
    have h64 : calculate_block_size ⟨49152, 12, 8⟩ 1000 1000 = some 64 := by decide
    rw [h64] at hr
    obtain rfl := Option.some.inj hr
    revert h; decide

/-- C5 amended: for a geometry whose line size is at least 4 (or non-positive, so
that the default 64 is used) and all `m`, `n` (those with `m, n ≥ 1` included), the
estimator returns a value that is a multiple of `elementsPerLine`, or equals
`min(m, n)`, or equals 8 or 64. -/
theorem calculate_block_size_alignment (cache : CacheInfo) (m n : Int)
    (hline : cache.line_size ≤ 0 ∨ 4 ≤ cache.line_size) :
    ∃ r, calculate_block_size cache m n = some r ∧
      (elementsPerLine cache ∣ r ∨ r = min m n ∨ r = 8 ∨ r = 64) := by
  obtain ⟨b, hb, hbb⟩ := calculate_block_size_form cache m n hline
  refine ⟨_, hb, ?_⟩
  by_cases h8 : b ≤ 8
  · right; right; left
    rw [min_eq_right (by omega : b ≤ 64), max_eq_left h8]
  · by_cases h64 : 64 ≤ b
    · right; right; right
      rw [min_eq_left h64]; rfl
    · rw [min_eq_right (by omega : b ≤ 64), max_eq_right (by omega : 8 ≤ b)]
      rcases hbb with h | h
      · exact Or.inl h
      · exact Or.inr (Or.inl h)

/-- C5 amended, at the first geometry of the counterexample. -/
theorem calculate_block_size_alignment_witness :
    (∃ r, calculate_block_size ⟨32768, 64, 8⟩ 10 10 = some r ∧
      (elementsPerLine ⟨32768, 64, 8⟩ ∣ r ∨ r = min 10 10 ∨ r = 8 ∨ r = 64)) ∧
    calculate_block_size ⟨32768, 64, 8⟩ 10 10 = some 10 :=
  ⟨calculate_block_size_alignment ⟨32768, 64, 8⟩ 10 10 (by decide), by decide⟩

/-- C6: for the geometry `{32768, 64, 8}` and `m = n = 1000` the estimator returns
64, a value in `[8, 64]` that is a multiple of `16 = 64 / 4`. -/
theorem calculate_block_size_scenario :
    ∃ r, calculate_block_size ⟨32768, 64, 8⟩ 1000 1000 = some r ∧ 8 ≤ r ∧ r ≤ 64 ∧
      elementsPerLine ⟨32768, 64, 8⟩ = 16 ∧ elementsPerLine ⟨32768, 64, 8⟩ ∣ r ∧ r = 64 :=
  ⟨64, by decide, by decide, by decide, by decide, by decide, rfl⟩

/-- C10: the estimator applies its own defaults field by field: its result on a
geometry is its result on the geometry whose non-positive fields are replaced by
49152, 64 and 8; the all-invalid geometry `{-1, -1, -1}` is treated as
`{49152, 64, 8}`. -/
theorem calculate_block_size_defaults (c : CacheInfo) (m n : Int) :
    calculate_block_size c m n = calculate_block_size (withEstimatorDefaults c) m n ∧
    calculate_block_size ⟨-1, -1, -1⟩ m n = calculate_block_size ⟨49152, 64, 8⟩ m n := by
  have key : ∀ c : CacheInfo,
      calculate_block_size c m n = calculate_block_size (withEstimatorDefaults c) m n := by
    intro c
    have h1 : (if (withEstimatorDefaults c).l1d_size > 0 then
        (withEstimatorDefaults c).l1d_size else 49152)
        = (if c.l1d_size > 0 then c.l1d_size else 49152) := by
      unfold withEstimatorDefaults; dsimp only; split_ifs <;> omega
    have h2 : (if (withEstimatorDefaults c).line_size > 0 then
        (withEstimatorDefaults c).line_size else 64)
        = (if c.line_size > 0 then c.line_size else 64) := by
      unfold withEstimatorDefaults; dsimp only; split_ifs <;> omega
    have h3 : (if (withEstimatorDefaults c).associativity > 0 then
        (withEstimatorDefaults c).associativity else 8)
        = (if c.associativity > 0 then c.associativity else 8) := by
      unfold withEstimatorDefaults; dsimp only; split_ifs <;> omega
    unfold calculate_block_size
    simp only [h1, h2, h3]
  exact ⟨key c, key ⟨-1, -1, -1⟩⟩

/-! ## Cache geometry probe -/

theorem normalize_pos (info : CacheInfo) :
    0 < (normalize info).l1d_size ∧ 0 < (normalize info).line_size ∧
      0 < (normalize info).associativity := by
  unfold normalize
  refine ⟨?_, ?_, ?_⟩ <;> dsimp only <;> split_ifs <;> omega

theorem get_cache_info_pos (p : Platform) (c : CacheInfo)
    (hp : ∀ queryOk buffer, p ≠ Platform.windows false queryOk buffer)
    (h : get_cache_info p = some c) :
    0 < c.l1d_size ∧ 0 < c.line_size ∧ 0 < c.associativity := by
  cases p with
  | windows mallocOk queryOk buffer =>
    cases mallocOk with
    | false => exact absurd rfl (hp queryOk buffer)
    | true =>
      simp only [get_cache_info, Bool.not_true, Bool.false_eq_true, if_false] at h
      split at h
      · exact absurd h (by simp)
      · obtain rfl := Option.some.inj h
        exact normalize_pos _
  | linux sysconf cpuinfo =>
    cases sysconf with
    | none =>
      simp only [get_cache_info] at h
      obtain rfl := Option.some.inj h
      exact normalize_pos _
    | some t =>
      obtain ⟨a, b, c'⟩ := t
      simp only [get_cache_info] at h
      split at h
      · obtain rfl := Option.some.inj h
        exact normalize_pos _
      · split at h
        · exact absurd h (by simp)
        · split at h
          · exact absurd h (by simp)
          · obtain rfl := Option.some.inj h
            exact normalize_pos _
  | apple a b c' =>
    simp only [get_cache_info] at h
    obtain rfl := Option.some.inj h
    exact normalize_pos _

/-- C7: on the descriptor-enumeration path, when `malloc` returns no buffer, the
early `return info` hands back the initial `{-1, -1, -1}` without the final
normalization: no field of the returned geometry is positive. -/
theorem get_cache_info_malloc_failure (queryOk : Bool) (buffer : List ProcessorInformation) :
    get_cache_info (Platform.windows false queryOk buffer) = some ⟨-1, -1, -1⟩ ∧
    ¬ (0 < (⟨-1, -1, -1⟩ : CacheInfo).l1d_size) ∧
    ¬ (0 < (⟨-1, -1, -1⟩ : CacheInfo).line_size) ∧
    ¬ (0 < (⟨-1, -1, -1⟩ : CacheInfo).associativity) := by
  refine ⟨by simp [get_cache_info], by decide, by decide, by decide⟩

/-- C8: two platform answers on which `get_cache_info` returns nothing: a
`/proc/cpuinfo` line whose `cache_alignment` field is not a number (read when
`sysconf` reports no associativity and no line size), where `std::stol` throws, and
a level-1 data cache descriptor whose line size is 0, where `l1d_size / line_size`
divides by zero. -/
theorem get_cache_info_failures :
    get_cache_info (Platform.linux (some (0, 0, 0)) ["cache_alignment\t: unknown"]) = none ∧
    get_cache_info (Platform.windows true true
      [⟨LogicalProcessorRelationship.RelationCache,
        ⟨1, 8, 0, 32768, ProcessorCacheType.CacheData⟩⟩]) = none := by
  constructor <;> decide

/-! ## Benchmark driver -/

theorem allocMatrix_shape (r c : Nat) :
    ∃ a, allocMatrix r c = some a ∧ Matrix.Shape r c a := by
  refine ⟨List.replicate r (List.replicate c 0), ?_, ?_, ?_⟩
  · simp [allocMatrix]
  · simp
  · intro row hrow
    rw [(List.mem_replicate.mp hrow).2]; simp

theorem fillZero_shape {n c : Nat} (m : Nat) {dst : Matrix} (h : Matrix.Shape n c dst) :
    ∃ d, fillZero dst m = some d ∧ Matrix.Shape n m d := by
  refine ⟨dst.map (fun _ => List.replicate m 0), ?_, ?_, ?_⟩
  · simp [fillZero]
  · simpa using h.1
  · intro row hrow
    obtain ⟨_, _, rfl⟩ := List.mem_map.mp hrow
    simp

theorem initialize_matrix_shape {m n : Nat} (fuel : Nat) (hfm : m ≤ fuel) (hfn : n ≤ fuel)
    (a : Matrix) (ha : Matrix.Shape m n a) :
    ∃ a', initialize_matrix fuel a m n = some a' ∧ Matrix.Shape m n a' := by
  obtain ⟨a', h1, h2, _⟩ := forLoop_cover (Matrix.Shape m n) (fun _ _ => True)
    (fun _ _ => True) (fun _ => trivial) (fun _ _ _ _ _ => trivial)
    (fun _ _ _ _ _ => trivial) 0 m 1 (le_refl 1)
    (fun i a => forLoop fuel 0 n 1 (fun j a => a.write i j (wrap32 (i * n + j))) a)
    (by
      intro i s hi hilt hs
      obtain ⟨a', h1, h2, _⟩ := forLoop_cover (Matrix.Shape m n) (fun _ _ => True)
        (fun _ _ => True) (fun _ => trivial) (fun _ _ _ _ _ => trivial)
        (fun _ _ _ _ _ => trivial) 0 n 1 (le_refl 1)
        (fun j a => a.write i j (wrap32 (i * n + j)))
        (by
          intro j s hj hjlt hs
          obtain ⟨a', h1, h2, _⟩ :=
            Matrix.write_of_shape hs hi hilt hj hjlt (wrap32 (i * n + j))
          exact ⟨a', h1, h2, trivial, fun _ _ _ _ => trivial⟩)
        fuel 0 (le_refl 0) (by omega) s hs
      exact ⟨a', h1, h2, trivial, fun _ _ _ _ => trivial⟩)
    fuel 0 (le_refl 0) (by omega) a ha
  exact ⟨a', h1, h2⟩

theorem timeCandidates_rows {m n : Nat} {src : Matrix} (hsrc : Matrix.Shape m n src)
    (fuel : Nat) (hfm : m ≤ fuel) (hfn : n ≤ fuel) (sizes : List Int)
    (hsizes : ∀ bs ∈ sizes, 1 ≤ bs) (dst : Matrix) (c : Nat) (hdst : Matrix.Shape n c dst)
    (rows : List RowLabel) :
    ∃ d c', timeCandidates fuel src m n sizes (dst, rows)
        = some (d, rows ++ sizes.map RowLabel.blockSize) ∧ Matrix.Shape n c' d := by
  induction sizes generalizing dst c rows with
  | nil => exact ⟨dst, c, by simp [timeCandidates], hdst⟩
  | cons bs rest ih =>
    obtain ⟨d0, hd0, hs0⟩ := fillZero_shape m hdst
    obtain ⟨d1, hd1, hs1⟩ := transpose_blocked_spec hsrc fuel hfm hfn bs
      (hsizes bs (List.mem_cons_self _ _)) d0 hs0
    have hstep : timeCandidates fuel src m n (bs :: rest) (dst, rows)
        = timeCandidates fuel src m n rest (d1, rows ++ [RowLabel.blockSize bs]) := by
      simp [timeCandidates, hd0, measure_transpose_time, hd1]
    obtain ⟨d, c', hrun, hshape⟩ := ih (fun b hb => hsizes b (List.mem_cons_of_mem _ hb))
      d1 m hs1.1 (rows ++ [RowLabel.blockSize bs])
    exact ⟨d, c', by rw [hstep, hrun]; simp, hshape⟩

/-- C9: for dimensions `m, n > 0`, with `p` the value of
`calculate_block_size(cache, m, n)`, the run of `main` completes, its candidate menu
is exactly `[8, 16, 32, 64, 128, 256, p]` (`p` last, not deduplicated), the blocked
kernel is run for these seven sizes in that order and then the naive kernel once:
eight rows, the naive row last. -/
theorem main_benchmark_rows (cache : CacheInfo) (m n p : Int) (fuel : Nat)
    (hm : 0 < m) (hn : 0 < n) (hp : calculate_block_size cache m n = some p)
    (hfuel : m ≤ fuel ∧ n ≤ fuel) :
    ∃ res, main_benchmark fuel cache m n = some res ∧
      res.predicted_block_size = p ∧
      res.block_sizes = [8, 16, 32, 64, 128, 256, p] ∧
      res.rows = [RowLabel.blockSize 8, RowLabel.blockSize 16, RowLabel.blockSize 32,
        RowLabel.blockSize 64, RowLabel.blockSize 128, RowLabel.blockSize 256,
        RowLabel.blockSize p, RowLabel.naive] ∧
      res.rows.length = 8 := by
  obtain ⟨hfm, hfn⟩ := hfuel
  lift m to Nat using le_of_lt hm
  lift n to Nat using le_of_lt hn
  have hfm' : m ≤ fuel := by omega
  have hfn' : n ≤ fuel := by omega
  have hline : cache.line_size ≤ 0 ∨ 4 ≤ cache.line_size := by
    by_contra hcon
    rw [calculate_block_size_small_line cache m n (by omega) (by omega)] at hp
    exact absurd hp (by simp)
  obtain ⟨p', hp', hp8, _⟩ := calculate_block_size_range cache m n hline
  obtain rfl : p' = p := by rw [hp] at hp'; exact (Option.some.inj hp').symm
  obtain ⟨src0, hsrc0, hshape0⟩ := allocMatrix_shape m n
  obtain ⟨dst0, hdst0, hdshape0⟩ := allocMatrix_shape n m
  obtain ⟨src, hsrc, hshape⟩ := initialize_matrix_shape fuel hfm' hfn' src0 hshape0
  have hsizes : ∀ bs ∈ [8, 16, 32, 64, 128, 256, p'], (1 : Int) ≤ bs := by
    intro bs hbs
    simp only [List.mem_cons, List.mem_singleton, List.not_mem_nil, or_false] at hbs
    omega
  obtain ⟨d1, c', hrun, hd1shape⟩ := timeCandidates_rows hshape fuel hfm' hfn'
    [8, 16, 32, 64, 128, 256, p'] hsizes dst0 m hdshape0 []
  obtain ⟨d2, hd2, hd2shape⟩ := fillZero_shape m hd1shape
  obtain ⟨d3, hd3, _⟩ := transpose_naive_spec hshape fuel hfm' hfn' d2 hd2shape
  refine ⟨⟨p', [8, 16, 32, 64, 128, 256, p'], _, d3⟩, ?_, rfl, rfl, rfl, rfl⟩
  simp only [main_benchmark, hsrc0, hdst0, hsrc, hp, hrun, hd2, hd3]
  rfl

/-- C9 at a 2 x 3 run with 32 KiB, 64-byte lines, 8 ways: the predicted size is 8. -/
theorem main_benchmark_rows_witness :
    ((0 : Int) < 2 ∧ (0 : Int) < 3 ∧ calculate_block_size ⟨32768, 64, 8⟩ 2 3 = some 8) ∧
    ∃ res, main_benchmark 3 ⟨32768, 64, 8⟩ 2 3 = some res ∧
      res.predicted_block_size = 8 ∧
      res.block_sizes = [8, 16, 32, 64, 128, 256, 8] ∧
      res.rows = [RowLabel.blockSize 8, RowLabel.blockSize 16, RowLabel.blockSize 32,
        RowLabel.blockSize 64, RowLabel.blockSize 128, RowLabel.blockSize 256,
        RowLabel.blockSize 8, RowLabel.naive] ∧
      res.rows.length = 8 :=
  ⟨by decide, main_benchmark_rows ⟨32768, 64, 8⟩ 2 3 8 3 (by decide) (by decide) (by decide)
    (by decide)⟩

theorem scanCpuinfo_of_pos (info : CacheInfo) (h1 : 0 < info.l1d_size)
    (h2 : 0 < info.line_size) (cpuinfo : List String) :
    scanCpuinfo info cpuinfo = some info := by
  induction cpuinfo with
  | nil => rfl
  | cons line rest ih =>
    have hline : scanCpuinfoLine info line.toList = some info := by
      have a : ¬ info.line_size ≤ 0 := by omega
      have b : ¬ info.l1d_size ≤ 0 := by omega
      simp [scanCpuinfoLine, a, b]
    rw [scanCpuinfo, hline]; exact ih

theorem specAssociativityGuess_mem (t : Int) :
    specAssociativityGuess t = 4 ∨ specAssociativityGuess t = 8 ∨
      specAssociativityGuess t = 12 := by
  unfold specAssociativityGuess
  split_ifs <;> simp

theorem guessAssociativity_eq (l1d line a : Int) (h1 : 0 < l1d) (h2 : 0 < line) :
    guessAssociativity ⟨l1d, line, a⟩
      = some ⟨l1d, line, specAssociativityGuess (l1d / line)⟩ := by
  have hne : line ≠ 0 := by omega
  have hdiv : Int.tdiv l1d line = l1d / line := Int.tdiv_eq_ediv (by omega) (by omega)
  simp only [guessAssociativity, h1, h2, gt_iff_lt, and_self, if_true, cdiv, hne, if_false,
    hdiv, specAssociativityGuess, Int.dvd_iff_tmod_eq_zero]

/-- C11: the final normalization acts on each field independently: a field that is
positive is returned unchanged, a field that is not is replaced by its fallback
(32768, 64, 8), whatever the other two fields are; normalization is idempotent. -/
theorem normalize_fields (info : CacheInfo) :
    (normalize info).l1d_size = (if 0 < info.l1d_size then info.l1d_size else 32768) ∧
    (normalize info).line_size = (if 0 < info.line_size then info.line_size else 64) ∧
    (normalize info).associativity
      = (if 0 < info.associativity then info.associativity else 8) ∧
    normalize (normalize info) = normalize info := by
  unfold normalize
  refine ⟨?_, ?_, ?_, ?_⟩
  · dsimp only; split_ifs <;> first | rfl | omega
  · dsimp only; split_ifs <;> first | rfl | omega
  · dsimp only; split_ifs <;> first | rfl | omega
  · dsimp only
    congr 1 <;> split_ifs <;> omega

/-- C12: on the fallback path, for a recovered `l1d_size > 0` and `line_size > 0`
the guessed associativity is 12 if `total_lines = l1d_size / line_size` is divisible
by 12, otherwise 8 if divisible by 8, otherwise 4 if divisible by 4, otherwise 8; it
is always one of 4, 8, 12, and it is what `get_cache_info` returns when `sysconf`
reports the two sizes but no associativity.  512 lines give 8 and 768 lines 12. -/
theorem guessAssociativity_spec (l1d line a : Int) (h1 : 0 < l1d) (h2 : 0 < line) :
    guessAssociativity ⟨l1d, line, a⟩
      = some ⟨l1d, line, specAssociativityGuess (l1d / line)⟩ ∧
    (specAssociativityGuess (l1d / line) = 4 ∨ specAssociativityGuess (l1d / line) = 8 ∨
      specAssociativityGuess (l1d / line) = 12) ∧
    (∀ sc_assoc cpuinfo, sc_assoc ≤ 0 →
      get_cache_info (Platform.linux (some (l1d, line, sc_assoc)) cpuinfo)
        = some ⟨l1d, line, specAssociativityGuess (l1d / line)⟩) ∧
    specAssociativityGuess (32768 / 64) = 8 ∧ specAssociativityGuess (49152 / 64) = 12 := by
  refine ⟨guessAssociativity_eq l1d line a h1 h2, specAssociativityGuess_mem _, ?_,
    by decide, by decide⟩
  intro sc_assoc cpuinfo hsc
  have hscan := scanCpuinfo_of_pos ⟨l1d, line, -1⟩ h1 h2 cpuinfo
  have hnot : ¬ sc_assoc > 0 := by omega
  have hg : 0 < specAssociativityGuess (l1d / line) := by
    rcases specAssociativityGuess_mem (l1d / line) with h | h | h <;> omega
  have hn : normalize ⟨l1d, line, specAssociativityGuess (l1d / line)⟩
      = ⟨l1d, line, specAssociativityGuess (l1d / line)⟩ := by
    have a1 : ¬ l1d ≤ 0 := by omega
    have a2 : ¬ line ≤ 0 := by omega
    have a3 : ¬ specAssociativityGuess (l1d / line) ≤ 0 := by omega
    simp [normalize, a1, a2, a3]
  simp only [get_cache_info, hnot, if_false, hscan, guessAssociativity_eq l1d line (-1) h1 h2,
    hn]

/-- C12 at the geometry 49152 / 64: 768 lines, guessed 12 ways. -/
theorem guessAssociativity_spec_witness :
    guessAssociativity ⟨49152, 64, -1⟩ = some ⟨49152, 64, 12⟩ ∧
    (guessAssociativity ⟨49152, 64, -1⟩
      = some ⟨49152, 64, specAssociativityGuess (49152 / 64)⟩ ∧
    (specAssociativityGuess (49152 / 64) = 4 ∨ specAssociativityGuess (49152 / 64) = 8 ∨
      specAssociativityGuess (49152 / 64) = 12) ∧
    (∀ sc_assoc cpuinfo, sc_assoc ≤ 0 →
      get_cache_info (Platform.linux (some (49152, 64, sc_assoc)) cpuinfo)
        = some ⟨49152, 64, specAssociativityGuess (49152 / 64)⟩) ∧
    specAssociativityGuess (32768 / 64) = 8 ∧ specAssociativityGuess (49152 / 64) = 12) :=
  ⟨by decide, guessAssociativity_spec 49152 64 (-1) (by decide) (by decide)⟩

theorem scanDescriptors_skip (info : CacheInfo) (pre rest : List ProcessorInformation)
    (hpre : ∀ x ∈ pre, ¬ IsL1Data x) :
    scanDescriptors info (pre ++ rest) = scanDescriptors info rest := by
  induction pre with
  | nil => rfl
  | cons x xs ih =>
    have hx : ¬ IsL1Data x := hpre x (List.mem_cons_self _ _)
    unfold IsL1Data at hx
    rw [List.cons_append, scanDescriptors, if_neg hx]
    exact ih (fun y hy => hpre y (List.mem_cons_of_mem _ hy))

theorem scanDescriptors_none_match (info : CacheInfo) (buffer : List ProcessorInformation)
    (h : ∀ x ∈ buffer, ¬ IsL1Data x) : scanDescriptors info buffer = some info := by
  have := scanDescriptors_skip info buffer [] h
  simpa [scanDescriptors] using this

theorem wrap32_of_lt (x : Nat) (h : x < 2147483648) : wrap32 x = x := by
  unfold wrap32; omega

theorem wrap32_nonpos_of_ge (x : Nat) (h1 : 2147483648 ≤ x) (h2 : x < 4294967296) :
    wrap32 x ≤ 0 := by
  unfold wrap32; omega

/-- C13 as stated fails: a level-1 data cache descriptor that reports size 0 does not
have its size copied; the final normalization replaces it by 32768. -/
theorem get_cache_info_descriptor_counterexample :
    IsL1Data ⟨LogicalProcessorRelationship.RelationCache,
      ⟨1, 8, 64, 0, ProcessorCacheType.CacheData⟩⟩ ∧
    get_cache_info (Platform.windows true true
      [⟨LogicalProcessorRelationship.RelationCache,
        ⟨1, 8, 64, 0, ProcessorCacheType.CacheData⟩⟩]) = some ⟨32768, 64, 8⟩ ∧
    get_cache_info (Platform.windows true true
      [⟨LogicalProcessorRelationship.RelationCache,
        ⟨1, 8, 64, 0, ProcessorCacheType.CacheData⟩⟩])
      ≠ some (specDescriptorGeometry ⟨1, 8, 64, 0, ProcessorCacheType.CacheData⟩) := by
  refine ⟨by decide, by decide, by decide⟩

/-- C13 amended: when the enumeration succeeds, the geometry is taken from the first
record that is a level-1 data cache, provided its line size is not 0: the size is
copied when it lies in `1 .. 2^31 - 1` and is 32768 otherwise, the line size is
copied, the associativity is copied unless it is 0 or 0xFF, when it is 8; the records
after it are ignored.  When no record matches, the result is `{32768, 64, 8}`. -/
theorem get_cache_info_first_descriptor (pre post : List ProcessorInformation)
    (d : ProcessorInformation) (hpre : ∀ x ∈ pre, ¬ IsL1Data x) (hd : IsL1Data d)
    (hline : 0 < d.Cache.LineSize) (hsize : d.Cache.Size < 4294967296) :
    get_cache_info (Platform.windows true true (pre ++ d :: post))
      = some ⟨if 0 < d.Cache.Size ∧ d.Cache.Size < 2147483648 then d.Cache.Size else 32768,
          d.Cache.LineSize,
          if d.Cache.Associativity = 0 ∨ d.Cache.Associativity = 255 then 8
          else d.Cache.Associativity⟩ ∧
    (∀ buffer, (∀ x ∈ buffer, ¬ IsL1Data x) →
      get_cache_info (Platform.windows true true buffer) = some ⟨32768, 64, 8⟩) := by
  constructor
  · have hd' := hd
    unfold IsL1Data at hd'
    have hne : (d.Cache.LineSize : Int) ≠ 0 := by omega
    have hscan : scanDescriptors ⟨-1, -1, -1⟩ (pre ++ d :: post)
        = some ⟨wrap32 d.Cache.Size, d.Cache.LineSize,
            if (d.Cache.Associativity : Int) = 0 ∨ (d.Cache.Associativity : Int) = 255
            then 8 else d.Cache.Associativity⟩ := by
      rw [scanDescriptors_skip _ pre _ hpre, scanDescriptors, if_pos hd']
      simp [cdiv, hne]
    simp only [get_cache_info, Bool.not_true, Bool.false_eq_true, if_false, if_true, hscan,
      normalize]
    have hl : ¬ (d.Cache.LineSize : Int) ≤ 0 := by omega
    rw [Option.some.injEq, CacheInfo.mk.injEq]
    refine ⟨?_, ?_, ?_⟩
    · by_cases hs : 0 < d.Cache.Size ∧ d.Cache.Size < 2147483648
      · rw [if_pos hs, wrap32_of_lt _ hs.2, if_neg (by omega)]
      · rw [if_neg hs]
        by_cases h0 : d.Cache.Size = 0
        · rw [h0]; decide
        · rw [if_pos (wrap32_nonpos_of_ge _ (by omega) hsize)]
    · rw [if_neg hl]
    · by_cases ha : d.Cache.Associativity = 0 ∨ d.Cache.Associativity = 255
      · have ha' : (d.Cache.Associativity : Int) = 0 ∨ (d.Cache.Associativity : Int) = 255 := by
          omega
        rw [if_pos ha, if_pos ha']; rfl
      · have ha' : ¬ ((d.Cache.Associativity : Int) = 0 ∨
            (d.Cache.Associativity : Int) = 255) := by omega
        rw [if_neg ha, if_neg ha', if_neg (by omega)]
  · intro buffer hbuf
    simp only [get_cache_info, Bool.not_true, Bool.false_eq_true, if_false, if_true,
      scanDescriptors_none_match _ buffer hbuf]
    rfl

/-- C13 amended, at a buffer holding a processor-core record, a level-1 instruction
cache, then two level-1 data caches: the first data cache (48 KiB, unknown
associativity) gives the geometry `{49152, 64, 8}`. -/
theorem get_cache_info_first_descriptor_witness :
    (∀ x ∈ sampleBefore, ¬ IsL1Data x) ∧ IsL1Data sampleFirst ∧
    get_cache_info (Platform.windows true true (sampleBefore ++ sampleFirst :: sampleAfter))
      = some ⟨49152, 64, 8⟩ ∧
    (get_cache_info (Platform.windows true true (sampleBefore ++ sampleFirst :: sampleAfter))
      = some ⟨if 0 < sampleFirst.Cache.Size ∧ sampleFirst.Cache.Size < 2147483648
            then sampleFirst.Cache.Size else 32768,
          sampleFirst.Cache.LineSize,
          if sampleFirst.Cache.Associativity = 0 ∨ sampleFirst.Cache.Associativity = 255
          then 8 else sampleFirst.Cache.Associativity⟩ ∧
    (∀ buffer, (∀ x ∈ buffer, ¬ IsL1Data x) →
      get_cache_info (Platform.windows true true buffer) = some ⟨32768, 64, 8⟩)) :=
  ⟨by decide, by decide, by decide,
    get_cache_info_first_descriptor sampleBefore sampleAfter sampleFirst (by decide)
      (by decide) (by decide) (by decide)⟩

theorem wrap32_of_range (x : Int) (h0 : 0 ≤ x) (h : x ≤ 2147483647) : wrap32 x = x := by
  unfold wrap32; omega

theorem cell_value_range {m n : Nat} (hrange : m * n ≤ 2147483647) {i j : Int}
    (hi0 : 0 ≤ i) (hi : i < m) (hj0 : 0 ≤ j) (hj : j < n) :
    0 ≤ i * n + j ∧ i * n + j ≤ 2147483647 := by
  have h1 : 0 ≤ i * n := by positivity
  have h2 : i * (n : Int) ≤ ((m : Int) - 1) * n :=
    Int.mul_le_mul_of_nonneg_right (by omega) (by omega)
  have h3 : ((m * n : Nat) : Int) ≤ 2147483647 := by exact_mod_cast hrange
  have h4 : ((m : Int) - 1) * n = ((m * n : Nat) : Int) - n := by push_cast; ring
  constructor
  · omega
  · omega

theorem initialize_matrix_spec {m n : Nat} (hrange : m * n ≤ 2147483647) (fuel : Nat)
    (hfm : m ≤ fuel) (hfn : n ≤ fuel) (a : Matrix) (ha : Matrix.Shape m n a) :
    ∃ a', initialize_matrix fuel a m n = some a' ∧ Matrix.Shape m n a' ∧
      ∀ i j : Int, 0 ≤ i → i < m → 0 ≤ j → j < n → a'.read i j = some (i * n + j) := by
  obtain ⟨a', h1, h2, _, h4⟩ := forLoop_cover (Matrix.Shape m n)
    (fun a b => ∀ i j : Int, a.read i j = some (i * n + j) → b.read i j = some (i * n + j))
    (fun k a => ∀ j : Int, 0 ≤ j → j < n → a.read k j = some (k * n + j))
    (fun _ _ _ h => h) (fun _ _ _ h1 h2 i j h => h2 i j (h1 i j h))
    (fun k a b hab h j hj0 hj => hab k j (h j hj0 hj)) 0 m 1 (le_refl 1)
    (fun i a => forLoop fuel 0 n 1 (fun j a => a.write i j (wrap32 (i * n + j))) a)
    (by
      intro i s hi hilt hs
      obtain ⟨a', h1, h2, h3, h4⟩ := forLoop_cover (Matrix.Shape m n)
        (fun a b => ∀ i j : Int, a.read i j = some (i * n + j) →
          b.read i j = some (i * n + j))
        (fun k a => a.read i k = some (i * n + k))
        (fun _ _ _ h => h) (fun _ _ _ h1 h2 i j h => h2 i j (h1 i j h))
        (fun k a b hab h => hab i k h) 0 n 1 (le_refl 1)
        (fun j a => a.write i j (wrap32 (i * n + j)))
        (by
          intro j s hj hjlt hs
          obtain ⟨a', h1, h2, h3, h4⟩ :=
            Matrix.write_of_shape hs hi hilt hj hjlt (wrap32 (i * n + j))
          have hv : wrap32 (i * n + j) = i * n + j :=
            wrap32_of_range _ (cell_value_range hrange hi hilt hj hjlt).1
              (cell_value_range hrange hi hilt hj hjlt).2
          rw [hv] at h3
          refine ⟨a', h1, h2, ?_, ?_⟩
          · intro i' j' hread
            by_cases hne : i' ≠ i ∨ j' ≠ j
            · rw [h4 i' j' hne]; exact hread
            · have hi' : i' = i := by omega
              have hj' : j' = j := by omega
              subst hi' hj'
              exact h3
          · intro k hk1 hk2 _
            have : k = j := by omega
            subst this
            exact h3)
        fuel 0 (le_refl 0) (by omega) s hs
      refine ⟨a', h1, h2, h3, ?_⟩
      intro k hk1 hk2 _ j hj0 hj
      have : k = i := by omega
      subst this
      exact h4 j hj0 hj)
    fuel 0 (le_refl 0) (by omega) a ha
  exact ⟨a', h1, h2, fun i j hi0 hi hj0 hj => h4 i hi0 hi j hj0 hj⟩

/-- C14: for `m, n ≥ 0` with `m * n` within the 32-bit signed range,
`initialize_matrix(matrix, m, n)` leaves `matrix[i][j] = i * n + j` in every cell,
and either transpose kernel applied to this source leaves `dst[j][i] = i * n + j`. -/
theorem initialize_matrix_cells (m n : Nat) (matrix dst : Matrix) (block_size : Int)
    (fuel : Nat) (hmat : Matrix.Shape m n matrix) (hdst : Matrix.Shape n m dst)
    (hbs : 1 ≤ block_size) (hrange : m * n ≤ 2147483647) (hfuel : m ≤ fuel ∧ n ≤ fuel) :
    ∃ src, initialize_matrix fuel matrix m n = some src ∧
      (∀ i j : Nat, i < m → j < n → src.read i j = some ((i : Int) * n + j)) ∧
      (∃ d, transpose_naive fuel src dst m n = some d ∧
        ∀ i j : Nat, i < m → j < n → d.read j i = some ((i : Int) * n + j)) ∧
      (∃ d, transpose_blocked fuel src dst m n block_size = some d ∧
        ∀ i j : Nat, i < m → j < n → d.read j i = some ((i : Int) * n + j)) := by
  obtain ⟨src, hsrc, hshape, hcells⟩ :=
    initialize_matrix_spec hrange fuel hfuel.1 hfuel.2 matrix hmat
  have hcopy : ∀ d, IsTranspose m n src d →
      ∀ i j : Nat, i < m → j < n → d.read j i = some ((i : Int) * n + j) := by
    intro d hd i j hi hj
    obtain ⟨v, hv, hdv⟩ := hd.2 i j (by omega) (by omega) (by omega) (by omega)
    rw [hcells i j (by omega) (by omega) (by omega) (by omega)] at hv
    rw [hdv, ← hv]
  obtain ⟨d1, hd1, ht1⟩ := transpose_naive_spec hshape fuel hfuel.1 hfuel.2 dst hdst
  obtain ⟨d2, hd2, ht2⟩ :=
    transpose_blocked_spec hshape fuel hfuel.1 hfuel.2 block_size hbs dst hdst
  exact ⟨src, hsrc, fun i j hi hj => hcells i j (by omega) (by omega) (by omega) (by omega),
    ⟨d1, hd1, hcopy d1 ht1⟩, ⟨d2, hd2, hcopy d2 ht2⟩⟩

/-- C14 at a 4 x 4 matrix: initialization gives the source of the worked scenario. -/
theorem initialize_matrix_cells_witness :
    initialize_matrix 4 zero4 4 4 = some src4 ∧
    ∃ src, initialize_matrix 4 zero4 (4 : Nat) (4 : Nat) = some src ∧
      (∀ i j : Nat, i < 4 → j < 4 → src.read i j = some ((i : Int) * (4 : Nat) + j)) ∧
      (∃ d, transpose_naive 4 src zero4 (4 : Nat) (4 : Nat) = some d ∧
        ∀ i j : Nat, i < 4 → j < 4 → d.read j i = some ((i : Int) * (4 : Nat) + j)) ∧
      (∃ d, transpose_blocked 4 src zero4 (4 : Nat) (4 : Nat) 2 = some d ∧
        ∀ i j : Nat, i < 4 → j < 4 → d.read j i = some ((i : Int) * (4 : Nat) + j)) :=
  ⟨by decide!, initialize_matrix_cells 4 4 zero4 zero4 2 4 (by decide) (by decide)
    (by decide) (by decide) (by decide)⟩

/-! ## Block-size estimator: the two correction branches -/

theorem calculate_block_size_unfold (cache : CacheInfo) (m n : Int)
    (he : elementsPerLine cache ≠ 0) :
    calculate_block_size cache m n =
      match (if totalLines cache m n > maxLines cache then
          alignDown (sqrt_int (Int.tdiv (Int.tdiv (effectiveL1dSize cache) 2) 4))
            (elementsPerLine cache)
        else some (clampedCandidate cache m n)) with
      | none => none
      | some block_size =>
        match (if linesPerBlock cache m n
              > effectiveAssociativity cache * cacheSets cache then
            alignDown
              (sqrt_int (Int.tdiv (effectiveAssociativity cache * effectiveLineSize cache) 4))
              (elementsPerLine cache)
          else some block_size) with
        | none => none
        | some block_size => some (max 8 (min 64 block_size)) := by
  have hl0 : effectiveLineSize cache ≠ 0 := by
    unfold effectiveLineSize; split <;> omega
  have ha : effectiveAssociativity cache ≠ 0 := by
    unfold effectiveAssociativity; split <;> omega
  have he' : Int.tdiv (effectiveLineSize cache) 4 ≠ 0 := he
  unfold calculate_block_size
  simp only [← effectiveLineSize.eq_1 cache, ← effectiveL1dSize.eq_1 cache,
    ← effectiveAssociativity.eq_1 cache, alignDown_eq he', cdiv, hl0, ha, if_false,
    totalLines, linesPerBlock, clampedCandidate, alignedCandidate, maxLines, cacheSets,
    elementsPerLine]

theorem isqrtBits_sq_le (x k r : Nat) (h : r * r ≤ x) :
    isqrtBits x k r * isqrtBits x k r ≤ x := by
  induction k generalizing r with
  | zero => simpa [isqrtBits] using h
  | succ k ih =>
    rw [isqrtBits]
    split
    · next h' => exact ih _ h'
    · exact ih _ h

theorem sqrt_int_sq_le (x : Int) (h0 : 0 ≤ x) :
    0 ≤ sqrt_int x ∧ sqrt_int x * sqrt_int x ≤ x := by
  have hs := isqrtBits_sq_le x.toNat 32 0 (by simp)
  unfold sqrt_int
  refine ⟨by positivity, ?_⟩
  zify at hs
  omega

theorem effectiveLineSize_ge (cache : CacheInfo)
    (hline : cache.line_size ≤ 0 ∨ 4 ≤ cache.line_size) : 4 ≤ effectiveLineSize cache := by
  unfold effectiveLineSize; split <;> omega

theorem effectiveL1dSize_pos (cache : CacheInfo) : 0 < effectiveL1dSize cache := by
  unfold effectiveL1dSize; split <;> omega

theorem effectiveAssociativity_pos (cache : CacheInfo) :
    0 < effectiveAssociativity cache := by
  unfold effectiveAssociativity; split <;> omega

theorem elementsPerLine_pos (cache : CacheInfo)
    (hline : cache.line_size ≤ 0 ∨ 4 ≤ cache.line_size) : 1 ≤ elementsPerLine cache :=
  tdiv_four_pos (effectiveLineSize_ge cache hline)

theorem clampedCandidate_bounds (cache : CacheInfo) (m n : Int) (hm : 1 ≤ m) (hn : 1 ≤ n)
    (hline : cache.line_size ≤ 0 ∨ 4 ≤ cache.line_size) :
    0 ≤ clampedCandidate cache m n ∧
      8 * (clampedCandidate cache m n * clampedCandidate cache m n)
        ≤ effectiveL1dSize cache := by
  have hL := effectiveL1dSize_pos cache
  have he := elementsPerLine_pos cache hline
  have hx : 0 ≤ Int.tdiv (effectiveL1dSize cache) 8 := by
    rw [Int.tdiv_eq_ediv (by omega) (by omega)]; omega
  have hdiv : Int.tdiv (effectiveL1dSize cache) 8 = effectiveL1dSize cache / 8 :=
    Int.tdiv_eq_ediv (by omega) (by omega)
  obtain ⟨hs0, hs⟩ := sqrt_int_sq_le _ hx
  set s := sqrt_int (Int.tdiv (effectiveL1dSize cache) 8) with hsdef
  have hs' : s * s ≤ effectiveL1dSize cache / 8 := by rw [← hdiv]; exact hs
  have ha0 : 0 ≤ alignedCandidate cache := by
    unfold alignedCandidate
    rw [← hsdef, Int.tdiv_eq_ediv hs0 (by omega)]
    exact Int.mul_nonneg (Int.ediv_nonneg hs0 (by omega)) (by omega)
  have ha1 : alignedCandidate cache ≤ s := by
    unfold alignedCandidate
    rw [← hsdef, Int.tdiv_eq_ediv hs0 (by omega)]
    exact Int.ediv_mul_le _ (by omega)
  have hb0 : 0 ≤ clampedCandidate cache m n := by
    unfold clampedCandidate
    exact le_min ha0 (le_min (by omega) (by omega))
  have hb1 : clampedCandidate cache m n ≤ s :=
    le_trans (min_le_left _ _) ha1
  have hsq : clampedCandidate cache m n * clampedCandidate cache m n ≤ s * s :=
    Int.mul_le_mul hb1 hb1 hb0 hs0
  refine ⟨hb0, ?_⟩
  omega

theorem wrap32_le_self (x : Int) (h : 0 ≤ x) : wrap32 x ≤ x := by
  unfold wrap32; omega

theorem totalLines_le_maxLines (cache : CacheInfo) (m n : Int) (hm : 1 ≤ m) (hn : 1 ≤ n)
    (hline : cache.line_size ≤ 0 ∨ 4 ≤ cache.line_size) :
    totalLines cache m n ≤ maxLines cache := by
  have hL := effectiveL1dSize_pos cache
  have hl := effectiveLineSize_ge cache hline
  obtain ⟨hb0, hb⟩ := clampedCandidate_bounds cache m n hm hn hline
  have hw := wrap32_le_self (clampedCandidate cache m n * clampedCandidate cache m n)
    (Int.mul_nonneg hb0 hb0)
  unfold totalLines linesPerBlock maxLines
  set X := wrap32 (clampedCandidate cache m n * clampedCandidate cache m n) * 4 with hX
  have h2X : 2 * X ≤ effectiveL1dSize cache := by omega
  rw [Int.tdiv_eq_ediv (by omega : 0 ≤ effectiveL1dSize cache) (by omega)]
  by_cases hneg : X < 0
  · have h1 : Int.tdiv X (effectiveLineSize cache) ≤ 0 := by
      have : Int.tdiv X (effectiveLineSize cache)
          = -(Int.tdiv (-X) (effectiveLineSize cache)) := by
        rw [Int.neg_tdiv]; omega
      rw [this, Int.tdiv_eq_ediv (by omega) (by omega)]
      have := Int.ediv_nonneg (by omega : 0 ≤ -X) (by omega : 0 ≤ effectiveLineSize cache)
      omega
    have h2 : 0 ≤ effectiveL1dSize cache / effectiveLineSize cache :=
      Int.ediv_nonneg (by omega) (by omega)
    omega
  · rw [Int.tdiv_eq_ediv (by omega) (by omega)]
    apply Int.le_ediv_of_mul_le (by omega)
    have := Int.ediv_mul_le X (by omega : effectiveLineSize cache ≠ 0)
    have e : 2 * (X / effectiveLineSize cache) * effectiveLineSize cache
        = 2 * (X / effectiveLineSize cache * effectiveLineSize cache) := by ring
    rw [e]; omega

theorem assoc_branch_only_if (cache : CacheInfo) (m n : Int) (hm : 1 ≤ m) (hn : 1 ≤ n)
    (hline : cache.line_size ≤ 0 ∨ 4 ≤ cache.line_size)
    (hfire : linesPerBlock cache m n > effectiveAssociativity cache * cacheSets cache) :
    maxLines cache < effectiveAssociativity cache := by
  by_contra hcon
  have hA := effectiveAssociativity_pos cache
  have hcap := totalLines_le_maxLines cache m n hm hn hline
  unfold totalLines at hcap
  have hM : 0 ≤ maxLines cache := by omega
  unfold cacheSets at hfire
  rw [Int.tdiv_eq_ediv hM (by omega)] at hfire
  have h1 := Int.ediv_add_emod (maxLines cache) (effectiveAssociativity cache)
  have h2 := Int.emod_lt_of_pos (maxLines cache) hA
  have h3 : 1 ≤ maxLines cache / effectiveAssociativity cache :=
    Int.le_ediv_of_mul_le hA (by omega)
  have h4 : effectiveAssociativity cache * 1
      ≤ effectiveAssociativity cache * (maxLines cache / effectiveAssociativity cache) :=
    Int.mul_le_mul_of_nonneg_left h3 (by omega)
  omega

theorem sqrt_int_eq_sqrt (x : Int) (h0 : 0 ≤ x) (h : x < 18446744073709551616) :
    sqrt_int x = (Nat.sqrt x.toNat : Int) := by
  obtain ⟨hs0, hs1, hs2⟩ := sqrt_int_spec x h0 h
  have hnat : (sqrt_int x).toNat = Nat.sqrt x.toNat := by
    apply Nat.eq_sqrt.mpr
    constructor
    · zify
      rw [Int.toNat_of_nonneg hs0, Int.toNat_of_nonneg h0]; exact hs1
    · zify
      rw [Int.toNat_of_nonneg hs0, Int.toNat_of_nonneg h0]; exact hs2
  rw [← hnat, Int.toNat_of_nonneg hs0]

/-- C15: the capacity-shrink branch is unreachable.  For a geometry whose line size
is at least 4 (or non-positive, so that 64 is used) and `m, n ≥ 1`, after the
candidate has been aligned and clamped to `min(m, n)`, `total_lines` never exceeds
`max_lines`; the estimator is the estimator without lines 94-97. -/
theorem capacity_branch_unreachable (cache : CacheInfo) (m n : Int) (hm : 1 ≤ m)
    (hn : 1 ≤ n) (hline : cache.line_size ≤ 0 ∨ 4 ≤ cache.line_size) :
    ¬ (totalLines cache m n > maxLines cache) ∧
    calculate_block_size cache m n = estimateWithoutShrink cache m n := by
  have hcap := totalLines_le_maxLines cache m n hm hn hline
  have he : elementsPerLine cache ≠ 0 := by
    have := elementsPerLine_pos cache hline; omega
  refine ⟨by omega, ?_⟩
  rw [calculate_block_size_unfold cache m n he, if_neg (by omega)]
  rfl

/-- C15 at 32 KiB, 64-byte lines, 8 ways and a 1000 x 1000 matrix: 256 lines per
block, 512 in total, 512 available. -/
theorem capacity_branch_unreachable_witness :
    (linesPerBlock ⟨32768, 64, 8⟩ 1000 1000 = 256 ∧ maxLines ⟨32768, 64, 8⟩ = 512) ∧
    ¬ (totalLines ⟨32768, 64, 8⟩ 1000 1000 > maxLines ⟨32768, 64, 8⟩) ∧
    calculate_block_size ⟨32768, 64, 8⟩ 1000 1000
      = estimateWithoutShrink ⟨32768, 64, 8⟩ 1000 1000 :=
  ⟨by decide, capacity_branch_unreachable ⟨32768, 64, 8⟩ 1000 1000 (by decide) (by decide)
    (by decide)⟩

/-- C16: closed form.  For `0 < l1d_size < 2 ^ 55` (so that `l1d_size / 8 < 2 ^ 52`,
where the `double` root of the source is the exact floor root), `line_size ≥ 4`,
`associativity ≥ 1` and `m, n ≥ 1`: if `associativity ≤ l1d_size / line_size`, the
estimator returns `max(8, min(64, min(c, m, n)))` with
`c = (floor(sqrt(l1d_size / 8)) / e) * e` and `e = line_size / 4`, and the
associativity-correction branch is not taken; in general that branch is taken only
when the associativity exceeds the number of cache lines. -/
theorem calculate_block_size_closed_form (cache : CacheInfo) (m n : Int)
    (hl1 : 0 < cache.l1d_size) (hl2 : cache.l1d_size < 36028797018963968)
    (hline : 4 ≤ cache.line_size) (ha1 : 1 ≤ cache.associativity)
    (hm : 1 ≤ m) (hn : 1 ≤ n) :
    (cache.associativity ≤ cache.l1d_size / cache.line_size →
      calculate_block_size cache m n
        = some (max 8 (min 64 (min
            ((Nat.sqrt (cache.l1d_size / 8).toNat : Int) / (cache.line_size / 4)
              * (cache.line_size / 4)) (min m n)))) ∧
      ¬ (linesPerBlock cache m n > effectiveAssociativity cache * cacheSets cache)) ∧
    (linesPerBlock cache m n > effectiveAssociativity cache * cacheSets cache →
      cache.l1d_size / cache.line_size < cache.associativity) := by
  have hline' : cache.line_size ≤ 0 ∨ 4 ≤ cache.line_size := Or.inr hline
  have eL : effectiveL1dSize cache = cache.l1d_size := by
    unfold effectiveL1dSize; rw [if_pos (by omega)]
  have el : effectiveLineSize cache = cache.line_size := by
    unfold effectiveLineSize; rw [if_pos (by omega)]
  have eA : effectiveAssociativity cache = cache.associativity := by
    unfold effectiveAssociativity; rw [if_pos (by omega)]
  have eM : maxLines cache = cache.l1d_size / cache.line_size := by
    unfold maxLines; rw [eL, el, Int.tdiv_eq_ediv (by omega) (by omega)]
  have he : elementsPerLine cache ≠ 0 := by
    have := elementsPerLine_pos cache hline'; omega
  have hfire : linesPerBlock cache m n > effectiveAssociativity cache * cacheSets cache →
      cache.l1d_size / cache.line_size < cache.associativity := by
    intro h
    have := assoc_branch_only_if cache m n hm hn hline' h
    rw [eM, eA] at this; exact this
  refine ⟨?_, hfire⟩
  intro ha2
  have hnot : ¬ (linesPerBlock cache m n
      > effectiveAssociativity cache * cacheSets cache) := by
    intro h; have := hfire h; omega
  have hcap := totalLines_le_maxLines cache m n hm hn hline'
  refine ⟨?_, hnot⟩
  rw [calculate_block_size_unfold cache m n he, if_neg (by omega)]
  simp only [if_neg hnot]
  have hx0 : 0 ≤ cache.l1d_size / 8 := by omega
  have hx1 : cache.l1d_size / 8 < 18446744073709551616 := by omega
  have hc : clampedCandidate cache m n
      = min ((Nat.sqrt (cache.l1d_size / 8).toNat : Int) / (cache.line_size / 4)
          * (cache.line_size / 4)) (min m n) := by
    unfold clampedCandidate alignedCandidate elementsPerLine
    rw [eL, el, Int.tdiv_eq_ediv (by omega : (0 : Int) ≤ cache.l1d_size) (by omega),
      Int.tdiv_eq_ediv (by omega : (0 : Int) ≤ cache.line_size) (by omega),
      sqrt_int_eq_sqrt _ hx0 hx1,
      Int.tdiv_eq_ediv (by positivity) (by omega)]
  rw [hc]

/-- C16 at 32 KiB, 64-byte lines, 8 ways and a 1000 x 1000 matrix: the closed form
gives 64. -/
theorem calculate_block_size_closed_form_witness :
    calculate_block_size ⟨32768, 64, 8⟩ 1000 1000 = some 64 ∧
    (((8 : Int) ≤ 32768 / 64 →
      calculate_block_size ⟨32768, 64, 8⟩ 1000 1000
        = some (max 8 (min 64 (min
            ((Nat.sqrt ((32768 : Int) / 8).toNat : Int) / (64 / 4) * (64 / 4))
              (min 1000 1000)))) ∧
      ¬ (linesPerBlock ⟨32768, 64, 8⟩ 1000 1000
          > effectiveAssociativity ⟨32768, 64, 8⟩ * cacheSets ⟨32768, 64, 8⟩)) ∧
    (linesPerBlock ⟨32768, 64, 8⟩ 1000 1000
        > effectiveAssociativity ⟨32768, 64, 8⟩ * cacheSets ⟨32768, 64, 8⟩ →
      (32768 : Int) / 64 < 8)) :=
  ⟨by decide, calculate_block_size_closed_form ⟨32768, 64, 8⟩ 1000 1000 (by decide)
    (by decide) (by decide) (by decide) (by decide) (by decide)⟩

/-- C19: the estimator depends on the matrix dimensions only through `min(m, n)`:
equal minima give equal results, and in particular it is symmetric in `m`, `n`. -/
theorem calculate_block_size_min (cache : CacheInfo) (m n m' n' : Int)
    (h : min m n = min m' n') :
    calculate_block_size cache m n = calculate_block_size cache m' n' ∧
    calculate_block_size cache m n = calculate_block_size cache n m := by
  constructor
  · unfold calculate_block_size
    simp only [h]
  · unfold calculate_block_size
    simp only [min_comm m n]

/-- C19 at dimensions 10 x 1000 and 500 x 10. -/
theorem calculate_block_size_min_witness :
    min (10 : Int) 1000 = min 500 10 ∧
    (calculate_block_size ⟨32768, 64, 8⟩ 10 1000
        = calculate_block_size ⟨32768, 64, 8⟩ 500 10 ∧
      calculate_block_size ⟨32768, 64, 8⟩ 10 1000
        = calculate_block_size ⟨32768, 64, 8⟩ 1000 10) :=
  ⟨by decide, calculate_block_size_min ⟨32768, 64, 8⟩ 10 1000 500 10 (by decide)⟩

/-! ## The index pairs visited by the kernels -/

theorem forLoop_log {α : Type} (key : α → Int) (R : α → Prop) (start stop step : Int)
    (hstep : 1 ≤ step) (body : Int → List α → Option (List α))
    (hbody : ∀ i s, start ≤ i → i < stop →
      ∃ t, body i s = some (s ++ t) ∧ t.Nodup ∧
        ∀ x, x ∈ t ↔ (R x ∧ i ≤ key x ∧ key x < i + step ∧ key x < stop))
    (fuel : Nat) (i : Int) (hi : start ≤ i) (hfuel : stop - i ≤ fuel) (s : List α) :
    ∃ t, forLoop fuel i stop step body s = some (s ++ t) ∧ t.Nodup ∧
      ∀ x, x ∈ t ↔ (R x ∧ i ≤ key x ∧ key x < stop) := by
  induction fuel generalizing i s with
  | zero =>
    have hge : ¬ i < stop := by simp at hfuel; omega
    refine ⟨[], ?_, List.nodup_nil, ?_⟩
    · unfold forLoop; simp [hge]
    · intro x; simp only [List.not_mem_nil, false_iff]; intro h; omega
  | succ fuel ih =>
    by_cases hlt : i < stop
    · obtain ⟨t1, hb, hnd1, hmem1⟩ := hbody i s hi hlt
      obtain ⟨t2, hrun, hnd2, hmem2⟩ :=
        ih (i + step) (by omega) (by push_cast at hfuel ⊢; omega) (s ++ t1)
      refine ⟨t1 ++ t2, ?_, ?_, ?_⟩
      · rw [forLoop]; simp [hlt, hb, hrun]
      · rw [List.nodup_append]
        refine ⟨hnd1, hnd2, ?_⟩
        intro x hx1 hx2
        have a := (hmem1 x).mp hx1
        have b := (hmem2 x).mp hx2
        omega
      · intro x
        rw [List.mem_append, hmem1, hmem2]
        constructor
        · rintro (h | h)
          · exact ⟨h.1, h.2.1, h.2.2.2⟩
          · exact ⟨h.1, by omega, h.2.2⟩
        · rintro ⟨hR, h1, h2⟩
          by_cases hk : key x < i + step
          · exact Or.inl ⟨hR, h1, hk, h2⟩
          · exact Or.inr ⟨hR, by omega, h2⟩
    · refine ⟨[], ?_, List.nodup_nil, ?_⟩
      · unfold forLoop; simp [hlt]
      · intro x; simp only [List.not_mem_nil, false_iff]; intro h; omega

theorem tile_visits (fuel : Nat) (i0 i1 j0 j1 : Int) (hfi : i1 - i0 ≤ fuel)
    (hfj : j1 - j0 ≤ fuel) (s : List (Int × Int)) :
    ∃ t, forLoop fuel i0 i1 1 (fun ii s =>
        forLoop fuel j0 j1 1 (fun jj s => recordVisit ii jj s) s) s = some (s ++ t) ∧
      t.Nodup ∧
      ∀ x : Int × Int, x ∈ t ↔ ((j0 ≤ x.2 ∧ x.2 < j1) ∧ i0 ≤ x.1 ∧ x.1 < i1) := by
  refine forLoop_log (fun x : Int × Int => x.1) (fun x => j0 ≤ x.2 ∧ x.2 < j1) i0 i1 1
    (le_refl 1) _ ?_ fuel i0 (le_refl _) hfi s
  intro ii s hii hiilt
  obtain ⟨t, ht, hnd, hmem⟩ := forLoop_log (fun x : Int × Int => x.2)
    (fun x => x.1 = ii) j0 j1 1 (le_refl 1) (fun jj s => recordVisit ii jj s)
    (by
      intro jj s hjj hjjlt
      refine ⟨[(ii, jj)], rfl, List.nodup_singleton _, ?_⟩
      intro x
      beta_reduce
      simp only [List.mem_singleton]
      constructor
      · rintro rfl; exact ⟨rfl, le_refl _, by omega, hjjlt⟩
      · rintro ⟨h1, h2, h3, _⟩
        exact Prod.ext h1 (by omega))
    fuel j0 (le_refl _) hfj s
  refine ⟨t, ht, hnd, ?_⟩
  intro x
  beta_reduce at hmem ⊢
  rw [hmem]
  constructor
  · rintro ⟨h1, h2, h3⟩; exact ⟨⟨h2, h3⟩, by omega, by omega, by omega⟩
  · rintro ⟨⟨h2, h3⟩, h4, h5, _⟩; exact ⟨by omega, h2, h3⟩

theorem naiveVisits_spec (m n : Nat) (fuel : Nat) (hfm : m ≤ fuel) (hfn : n ≤ fuel) :
    ∃ t, naiveVisits fuel m n = some t ∧ t.Nodup ∧
      ∀ x : Int × Int, x ∈ t ↔ (0 ≤ x.1 ∧ x.1 < m ∧ 0 ≤ x.2 ∧ x.2 < n) := by
  obtain ⟨t, ht, hnd, hmem⟩ := tile_visits fuel 0 m 0 n (by omega) (by omega) []
  refine ⟨t, by simpa [naiveVisits, naiveLoops] using ht, hnd, ?_⟩
  intro x; rw [hmem]
  constructor
  · rintro ⟨⟨a, b⟩, c, d⟩; exact ⟨c, d, a, b⟩
  · rintro ⟨c, d, a, b⟩; exact ⟨⟨a, b⟩, c, d⟩

theorem blockedVisits_spec (m n : Nat) (block_size : Int) (hbs : 1 ≤ block_size)
    (fuel : Nat) (hfm : m ≤ fuel) (hfn : n ≤ fuel) :
    ∃ t, blockedVisits fuel m n block_size = some t ∧ t.Nodup ∧
      ∀ x : Int × Int, x ∈ t ↔ (0 ≤ x.1 ∧ x.1 < m ∧ 0 ≤ x.2 ∧ x.2 < n) := by
  obtain ⟨t, ht, hnd, hmem⟩ := forLoop_log (fun x : Int × Int => x.1)
    (fun x => 0 ≤ x.2 ∧ x.2 < n) 0 m block_size hbs
    (fun i s =>
      forLoop fuel 0 n block_size (fun j s =>
        let i_max := min (i + block_size) m
        let j_max := min (j + block_size) n
        forLoop fuel i i_max 1 (fun ii s =>
          forLoop fuel j j_max 1 (fun jj s => recordVisit ii jj s) s) s) s)
    (by
      intro i s hi hilt
      obtain ⟨t, ht, hnd, hmem⟩ := forLoop_log (fun x : Int × Int => x.2)
        (fun x => i ≤ x.1 ∧ x.1 < min (i + block_size) m) 0 n block_size hbs
        (fun j s =>
          let i_max := min (i + block_size) m
          let j_max := min (j + block_size) n
          forLoop fuel i i_max 1 (fun ii s =>
            forLoop fuel j j_max 1 (fun jj s => recordVisit ii jj s) s) s)
        (by
          intro j s hj hjlt
          have h1 : min (i + block_size) (m : Int) ≤ m := min_le_right _ _
          have h2 : min (j + block_size) (n : Int) ≤ n := min_le_right _ _
          obtain ⟨t, ht, hnd, hmem⟩ := tile_visits fuel i (min (i + block_size) m)
            j (min (j + block_size) n) (by omega) (by omega) s
          refine ⟨t, ht, hnd, ?_⟩
          intro x; beta_reduce at hmem ⊢; rw [hmem]
          constructor
          · rintro ⟨⟨a, b⟩, c, d⟩
            exact ⟨⟨c, d⟩, a, lt_of_lt_of_le b (min_le_left _ _),
              lt_of_lt_of_le b (min_le_right _ _)⟩
          · rintro ⟨⟨c, d⟩, a, b1, b2⟩
            exact ⟨⟨a, lt_min b1 b2⟩, c, d⟩)
        fuel 0 (le_refl _) (by omega) s
      refine ⟨t, ht, hnd, ?_⟩
      intro x; beta_reduce at hmem ⊢; rw [hmem]
      constructor
      · rintro ⟨⟨a, b⟩, c, d⟩
        exact ⟨⟨c, d⟩, a, lt_of_lt_of_le b (min_le_left _ _),
          lt_of_lt_of_le b (min_le_right _ _)⟩
      · rintro ⟨⟨c, d⟩, a, b1, b2⟩
        exact ⟨⟨a, lt_min b1 b2⟩, c, d⟩)
    fuel 0 (le_refl _) (by omega) []
  refine ⟨t, by simpa [blockedVisits, blockedLoops] using ht, hnd, ?_⟩
  intro x; rw [hmem]
  constructor
  · rintro ⟨⟨a, b⟩, c, d⟩; exact ⟨c, d, a, b⟩
  · rintro ⟨c, d, a, b⟩; exact ⟨⟨a, b⟩, c, d⟩

theorem forLoop_zip {σ τ : Type} (stop step : Int) (f : Int → σ → Option σ)
    (g : Int → τ → Option τ) (h : Int → σ × τ → Option (σ × τ))
    (hh : ∀ i a b a' b', f i a = some a' → g i b = some b' → h i (a, b) = some (a', b'))
    (fuel : Nat) (i : Int) (a : σ) (b : τ) (a' : σ) (b' : τ)
    (hf : forLoop fuel i stop step f a = some a')
    (hg : forLoop fuel i stop step g b = some b') :
    forLoop fuel i stop step h (a, b) = some (a', b') := by
  induction fuel generalizing i a b with
  | zero =>
    unfold forLoop at hf hg ⊢
    by_cases hlt : i < stop
    · simp [hlt] at hf
    · simp only [hlt, if_false] at hf hg ⊢
      rw [Option.some.inj hf, Option.some.inj hg]
  | succ fuel ih =>
    rw [forLoop] at hf hg ⊢
    by_cases hlt : i < stop
    · simp only [hlt, if_true] at hf hg ⊢
      cases hfa : f i a with
      | none => simp [hfa] at hf
      | some a1 =>
        cases hgb : g i b with
        | none => simp [hgb] at hg
        | some b1 =>
          simp only [hfa] at hf
          simp only [hgb] at hg
          simp only [hh i a b a1 b1 hfa hgb]
          exact ih (i + step) a1 b1 hf hg
    · simp only [hlt, if_false] at hf hg ⊢
      rw [Option.some.inj hf, Option.some.inj hg]

theorem assignAndRecord_zip (src : Matrix) (ii jj : Int) (a : Matrix)
    (b : List (Int × Int)) (a' : Matrix) (b' : List (Int × Int))
    (ha : assignTransposed src ii jj a = some a') (hb : recordVisit ii jj b = some b') :
    assignAndRecord src ii jj (a, b) = some (a', b') := by
  simp [assignAndRecord, ha, hb]

theorem transpose_naive_traced_eq (fuel : Nat) (src dst : Matrix) (m n : Int)
    (out : Matrix) (log : List (Int × Int))
    (hout : transpose_naive fuel src dst m n = some out)
    (hlog : naiveVisits fuel m n = some log) :
    transpose_naive_traced fuel src dst m n = some (out, log) := by
  unfold transpose_naive_traced naiveLoops
  unfold transpose_naive naiveLoops at hout
  unfold naiveVisits naiveLoops at hlog
  refine forLoop_zip m 1 _ _ _ ?_ fuel 0 dst [] out log hout hlog
  intro i a b a' b' ha hb
  exact forLoop_zip n 1 _ _ _ (fun j a b a' b' ha hb =>
    assignAndRecord_zip src i j a b a' b' ha hb) fuel 0 a b a' b' ha hb

theorem transpose_blocked_traced_eq (fuel : Nat) (src dst : Matrix) (m n block_size : Int)
    (out : Matrix) (log : List (Int × Int))
    (hout : transpose_blocked fuel src dst m n block_size = some out)
    (hlog : blockedVisits fuel m n block_size = some log) :
    transpose_blocked_traced fuel src dst m n block_size = some (out, log) := by
  unfold transpose_blocked_traced blockedLoops
  unfold transpose_blocked blockedLoops at hout
  unfold blockedVisits blockedLoops at hlog
  refine forLoop_zip m block_size _ _ _ ?_ fuel 0 dst [] out log hout hlog
  intro i a b a' b' ha hb
  refine forLoop_zip n block_size _ _ _ ?_ fuel 0 a b a' b' ha hb
  intro j a b a' b' ha hb
  refine forLoop_zip (min (i + block_size) m) 1 _ _ _ ?_ fuel i a b a' b' ha hb
  intro ii a b a' b' ha hb
  exact forLoop_zip (min (j + block_size) n) 1 _ _ _ (fun jj a b a' b' ha hb =>
    assignAndRecord_zip src ii jj a b a' b' ha hb) fuel j a b a' b' ha hb

theorem visits_length (m n : Nat) (t : List (Int × Int)) (hnd : t.Nodup)
    (hmem : ∀ x : Int × Int, x ∈ t ↔ (0 ≤ x.1 ∧ x.1 < m ∧ 0 ≤ x.2 ∧ x.2 < n)) :
    t.length = m * n := by
  have hinj : Function.Injective (fun p : Nat × Nat => ((p.1 : Int), (p.2 : Int))) := by
    intro p q hpq
    simp only [Prod.mk.injEq, Nat.cast_inj] at hpq
    exact Prod.ext hpq.1 hpq.2
  have hnd' : ((List.range m ×ˢ List.range n).map
      (fun p : Nat × Nat => ((p.1 : Int), (p.2 : Int)))).Nodup :=
    ((List.nodup_range m).product (List.nodup_range n)).map hinj
  have hperm : t.Perm ((List.range m ×ˢ List.range n).map
      (fun p : Nat × Nat => ((p.1 : Int), (p.2 : Int)))) := by
    rw [List.perm_ext_iff_of_nodup hnd hnd']
    intro x
    rw [hmem, List.mem_map]
    constructor
    · rintro ⟨a, b, c, d⟩
      refine ⟨(x.1.toNat, x.2.toNat), ?_, ?_⟩
      · rw [List.mem_product, List.mem_range, List.mem_range]
        constructor <;> omega
      · apply Prod.ext
        · exact Int.toNat_of_nonneg a
        · exact Int.toNat_of_nonneg c
    · rintro ⟨p, hp, rfl⟩
      rw [List.mem_product, List.mem_range, List.mem_range] at hp
      dsimp only
      omega
  rw [hperm.length_eq, List.length_map, List.length_product, List.length_range,
    List.length_range]

/-- C17: for `m, n ≥ 0` and a block size of at least 1, the sequence of index pairs
at which `transpose_blocked` performs its assignment holds every pair of
`[0, m) x [0, n)` exactly once and no other pair: `m * n` writes, all in bounds, and
the sequence is a permutation of the one of `transpose_naive`. -/
theorem transpose_blocked_visits (m n : Nat) (src dst : Matrix) (block_size : Int)
    (fuel : Nat) (hsrc : Matrix.Shape m n src) (hdst : Matrix.Shape n m dst)
    (hbs : 1 ≤ block_size) (hfuel : m ≤ fuel ∧ n ≤ fuel) :
    ∃ out visits visits',
      transpose_blocked_traced fuel src dst m n block_size = some (out, visits) ∧
      transpose_naive_traced fuel src dst m n = some (out, visits') ∧
      blockedVisits fuel m n block_size = some visits ∧
      naiveVisits fuel m n = some visits' ∧
      visits.Nodup ∧
      (∀ x : Int × Int, x ∈ visits ↔ (0 ≤ x.1 ∧ x.1 < m ∧ 0 ≤ x.2 ∧ x.2 < n)) ∧
      visits.length = m * n ∧
      visits.Perm visits' := by
  obtain ⟨hfm, hfn⟩ := hfuel
  obtain ⟨vb, hvb, hndb, hmemb⟩ := blockedVisits_spec m n block_size hbs fuel hfm hfn
  obtain ⟨vn, hvn, hndn, hmemn⟩ := naiveVisits_spec m n fuel hfm hfn
  obtain ⟨b, hb, hbt⟩ := transpose_blocked_spec hsrc fuel hfm hfn block_size hbs dst hdst
  obtain ⟨a, ha, hat⟩ := transpose_naive_spec hsrc fuel hfm hfn dst hdst
  have hab : a = b := IsTranspose.unique hat hbt
  subst hab
  refine ⟨a, vb, vn, transpose_blocked_traced_eq fuel src dst m n block_size a vb hb hvb,
    transpose_naive_traced_eq fuel src dst m n a vn ha hvn, hvb, hvn, hndb, hmemb,
    visits_length m n vb hndb hmemb, ?_⟩
  rw [List.perm_ext_iff_of_nodup hndb hndn]
  intro x
  rw [hmemb, hmemn]

/-- C17 at the 4 x 4 scenario with block size 2: the sixteen pairs, tile by tile. -/
theorem transpose_blocked_visits_witness :
    blockedVisits 4 4 4 2 = some [(0, 0), (0, 1), (1, 0), (1, 1), (0, 2), (0, 3), (1, 2),
      (1, 3), (2, 0), (2, 1), (3, 0), (3, 1), (2, 2), (2, 3), (3, 2), (3, 3)] ∧
    ∃ out visits visits',
      transpose_blocked_traced 4 src4 zero4 (4 : Nat) (4 : Nat) 2 = some (out, visits) ∧
      transpose_naive_traced 4 src4 zero4 (4 : Nat) (4 : Nat) = some (out, visits') ∧
      blockedVisits 4 (4 : Nat) (4 : Nat) 2 = some visits ∧
      naiveVisits 4 (4 : Nat) (4 : Nat) = some visits' ∧
      visits.Nodup ∧
      (∀ x : Int × Int, x ∈ visits ↔
        (0 ≤ x.1 ∧ x.1 < (4 : Nat) ∧ 0 ≤ x.2 ∧ x.2 < (4 : Nat))) ∧
      visits.length = 4 * 4 ∧
      visits.Perm visits' :=
  ⟨by decide!, transpose_blocked_visits 4 4 src4 zero4 2 4 (by decide) (by decide)
    (by decide) (by decide)⟩

/-! ## Termination of the blocked kernel -/

theorem forLoop_no_progress {σ : Type} (fuel : Nat) (i stop step : Int) (hstep : step ≤ 0)
    (hlt : i < stop) (body : Int → σ → Option σ) (s : σ) :
    forLoop fuel i stop step body s = none := by
  induction fuel generalizing i s with
  | zero => unfold forLoop; simp [hlt]
  | succ fuel ih =>
    rw [forLoop]
    simp only [hlt, if_true]
    cases body i s with
    | none => rfl
    | some s' => exact ih (i + step) (by omega) s'

theorem calculate_block_size_some_range (cache : CacheInfo) (m n p : Int)
    (hp : calculate_block_size cache m n = some p) : 8 ≤ p ∧ p ≤ 64 := by
  have hline : cache.line_size ≤ 0 ∨ 4 ≤ cache.line_size := by
    by_contra hcon
    rw [calculate_block_size_small_line cache m n (by omega) (by omega)] at hp
    exact absurd hp (by simp)
  obtain ⟨p', hp', h8, h64⟩ := calculate_block_size_range cache m n hline
  rw [hp] at hp'
  obtain rfl := Option.some.inj hp'
  exact ⟨h8, h64⟩

/-- C18: for `m, n ≥ 0` and a block size of at least 1, `transpose_blocked` returns
(the loop nest alone does, whatever the matrices), and every call of the driver meets
this precondition: each of the seven candidates
`[8, 16, 32, 64, 128, 256, calculate_block_size(cache, m, n)]` is at least 8.  For a
block size `≤ 0` and `m > 0` the outer loop makes no progress: no amount of fuel lets
the kernel return. -/
theorem transpose_blocked_terminates (m n : Nat) (src dst : Matrix) (block_size : Int)
    (fuel : Nat) (hsrc : Matrix.Shape m n src) (hdst : Matrix.Shape n m dst)
    (hbs : 1 ≤ block_size) (hfuel : m ≤ fuel ∧ n ≤ fuel) :
    (∃ out, transpose_blocked fuel src dst m n block_size = some out) ∧
    (∃ visits, blockedVisits fuel m n block_size = some visits) ∧
    (∀ cache p, calculate_block_size cache m n = some p →
      ∀ c ∈ [8, 16, 32, 64, 128, 256, p], (8 : Int) ≤ c) ∧
    (∀ (bs' : Int) (fuel' : Nat), bs' ≤ 0 → 0 < m →
      transpose_blocked fuel' src dst m n bs' = none ∧
      blockedVisits fuel' m n bs' = none) := by
  obtain ⟨out, hout, _⟩ :=
    transpose_blocked_spec hsrc fuel hfuel.1 hfuel.2 block_size hbs dst hdst
  obtain ⟨t, ht, _⟩ := blockedVisits_spec m n block_size hbs fuel hfuel.1 hfuel.2
  refine ⟨⟨out, hout⟩, ⟨t, ht⟩, ?_, ?_⟩
  · intro cache p hp c hc
    have := calculate_block_size_some_range cache m n p hp
    simp only [List.mem_cons, List.mem_singleton, List.not_mem_nil, or_false] at hc
    omega
  · intro bs' fuel' hbs' hm
    constructor
    · exact forLoop_no_progress fuel' 0 m bs' hbs' (by omega) _ dst
    · exact forLoop_no_progress fuel' 0 m bs' hbs' (by omega) _ []

/-- C18 at the 4 x 4 scenario with block size 2; with block size 0 a thousand
iterations are not enough. -/
theorem transpose_blocked_terminates_witness :
    transpose_blocked 1000 src4 zero4 4 4 0 = none ∧
    ((∃ out, transpose_blocked 4 src4 zero4 (4 : Nat) (4 : Nat) 2 = some out) ∧
    (∃ visits, blockedVisits 4 (4 : Nat) (4 : Nat) 2 = some visits) ∧
    (∀ cache p, calculate_block_size cache (4 : Nat) (4 : Nat) = some p →
      ∀ c ∈ [8, 16, 32, 64, 128, 256, p], (8 : Int) ≤ c) ∧
    (∀ (bs' : Int) (fuel' : Nat), bs' ≤ 0 → 0 < 4 →
      transpose_blocked fuel' src4 zero4 (4 : Nat) (4 : Nat) bs' = none ∧
      blockedVisits fuel' (4 : Nat) (4 : Nat) bs' = none)) :=
  ⟨by decide!, transpose_blocked_terminates 4 4 src4 zero4 2 4 (by decide) (by decide)
    (by decide) (by decide)⟩

end TransposeCache
